import Mathlib

/-!
Verification of the adk-scope feature-matching and scoring engine.

This file shallowly embeds the matching core of the repository:
`utils/similarity.py` (SimilarityScorer), `utils/stats.py`,
`matcher/matcher.py` (`match_features`, `_fuzzy_match_namespaces`,
the scoring core of `_process_module`).

Modelling conventions:
- Python floats are modelled as exact rationals (ℚ).
- The external `jellyfish.jaro_winkler_similarity` string-similarity
  function is a parameter `jw : String → String → ℚ` of the embedding;
  theorems that need its documented properties (range [0,1], value 1 on
  identical strings, symmetry) take them as hypotheses.
- `scipy.optimize.linear_sum_assignment(maximize=True)` is modelled by a
  brute-force optimal assignment over all injective index maps from the
  smaller side into the larger side; optimality of the chosen assignment
  is proved, not assumed.
- Python sets of canonical type-tag strings are modelled as `Finset String`.
-/

namespace AdkScope

/-- Enum `Feature.Type`, mirroring `types.py` / the feature proto. -/
inductive FeatureType
  | FUNCTION
  | INSTANCE_METHOD
  | CLASS_METHOD
  | CONSTRUCTOR
deriving DecidableEq, Repr

/-- A parameter record: the fields of `Param` read by the similarity scorer.
`normalized_types` is the set of canonical type-tag strings (the image of
`_to_str_set` in `similarity.py`). -/
structure Param where
  normalized_name : String
  normalized_types : Finset String
  is_optional : Bool
deriving DecidableEq

/-- A feature record: the fields of `Feature` read by the matching engine. -/
structure Feature where
  normalized_name : String
  normalized_member_of : String
  normalized_namespace : String
  type : FeatureType
  parameters : List Param
  normalized_return_types : Finset String
  async : Bool
deriving DecidableEq

/-- The five similarity weights (`namespace_` because `namespace` is a Lean
keyword). -/
structure SimilarityWeights where
  name : ℚ
  member_of : ℚ
  namespace_ : ℚ
  parameters : ℚ
  return_type : ℚ
deriving DecidableEq, Repr

/-- Constant `DEFAULT_SIMILARITY_WEIGHTS` from `similarity.py`. -/
def DEFAULT_SIMILARITY_WEIGHTS : SimilarityWeights :=
  { name := 3/10
    member_of := 3/10
    namespace_ := 3/20
    parameters := 3/20
    return_type := 1/10 }

/-- The per-pair score inside the loop of `SimilarityScorer._fuzzy_type_match`
(`similarity.py` lines 68-85). -/
def type_pair_score (t1 t2 : String) : ℚ :=
  if t1 = t2 then 1
  else if ({t1, t2} : Finset String) = {"MAP", "OBJECT"}
      ∨ ({t1, t2} : Finset String) = {"MAP", "ANY"} then 2/5
  else if t1 = "UNKNOWN" ∨ t1 = "ANY" ∨ t2 = "UNKNOWN" ∨ t2 = "ANY" then 3/10
  else if t1 = "OBJECT" ∨ t2 = "OBJECT" then 1/5
  else 0

/-- Method `SimilarityScorer._fuzzy_type_match` on the already-converted tag sets.
In the final branch the source folds `max` starting from `0.0`; since every
pair score is nonnegative this equals the supremum over the (nonempty)
product of the two sets. -/
def fuzzy_type_match (set1 set2 : Finset String) : ℚ :=
  if set1 = ∅ ∧ set2 = ∅ then 1
  else if h : set1 = ∅ ∨ set2 = ∅ then 0
  else if set1 = set2 then 1
  else
    set1.sup' (Finset.nonempty_of_ne_empty fun he => h (Or.inl he)) fun t1 =>
      set2.sup' (Finset.nonempty_of_ne_empty fun he => h (Or.inr he)) fun t2 =>
        type_pair_score t1 t2

/-! ### Optimal rectangular assignment

Model of `scipy.optimize.linear_sum_assignment(matrix, maximize=True)`:
every index on the smaller side is assigned, injectively, into the larger
side, maximizing the total score. The optimum is computed by brute force
over all injective maps, so the definition is executable and its
optimality is a theorem. -/

/-- All maps `Fin n → Fin m`, enumerated recursively. -/
def fun_list : (n m : ℕ) → List (Fin n → Fin m)
  | 0, _ => [fun r => r.elim0]
  | n + 1, m =>
    (List.finRange m).flatMap fun c => (fun_list n m).map fun f => Fin.cons c f

/-- All injective maps `Fin n → Fin m`. -/
def inj_list (n m : ℕ) : List (Fin n → Fin m) :=
  (fun_list n m).filter fun f => decide (Function.Injective f)

/-- Total score of an assignment `f` of rows to columns of matrix `M`. -/
def assignment_total (n m : ℕ) (M : Fin n → Fin m → ℚ) (f : Fin n → Fin m) : ℚ :=
  ∑ r, M r (f r)

/-- The chosen optimal assignment (first maximizer in enumeration order),
`none` only when no injective map exists (`n > m`). -/
def opt_assignment (n m : ℕ) (M : Fin n → Fin m → ℚ) : Option (Fin n → Fin m) :=
  (inj_list n m).argmax (assignment_total n m M)

/-- The maximal total assignment score over all injective `Fin n → Fin m`. -/
def opt_total (n m : ℕ) (M : Fin n → Fin m → ℚ) : ℚ :=
  match opt_assignment n m M with
  | some f => assignment_total n m M f
  | none => 0

/-- Optimal total for a possibly-wide matrix: the smaller side is the one
fully assigned, as `linear_sum_assignment` does. -/
def opt_total_rect (n m : ℕ) (M : Fin n → Fin m → ℚ) : ℚ :=
  if n ≤ m then opt_total n m M else opt_total m n (Function.swap M)

/-- The assignment pair list `zip(row_ind, col_ind)` returned by
`linear_sum_assignment` (rows sorted when rows are the smaller side). -/
def linear_sum_assignment (n m : ℕ) (M : Fin n → Fin m → ℚ) :
    List (Fin n × Fin m) :=
  if n ≤ m then
    match opt_assignment n m M with
    | some f => (List.finRange n).map fun r => (r, f r)
    | none => []
  else
    match opt_assignment m n (Function.swap M) with
    | some g => (List.finRange m).map fun c => (g c, c)
    | none => []

/-! ### SimilarityScorer -/

/-- Method `SimilarityScorer._calculate_param_similarity`, parametric in the
external string-similarity function `jw`. -/
def calculate_param_similarity (jw : String → String → ℚ) (param1 param2 : Param) : ℚ :=
  (1/2) * jw param1.normalized_name param2.normalized_name
    + (2/5) * fuzzy_type_match param1.normalized_types param2.normalized_types
    + (1/10) * (if param1.is_optional = param2.is_optional then 1 else 0)

/-- The |P1|×|P2| parameter similarity matrix of
`SimilarityScorer._calculate_parameters_score`. -/
def param_matrix (jw : String → String → ℚ) (params1 params2 : List Param) :
    Fin params1.length → Fin params2.length → ℚ :=
  fun i j => calculate_param_similarity jw (params1.get i) (params2.get j)

/-- Method `SimilarityScorer._calculate_parameters_score`. The source's final
`total_params == 0` guard is unreachable (both lists are nonempty there)
and is dropped. -/
def calculate_parameters_score (jw : String → String → ℚ)
    (params1 params2 : List Param) : ℚ :=
  if params1 = [] ∧ params2 = [] then 1
  else if params1 = [] ∨ params2 = [] then 0
  else
    2 * opt_total_rect params1.length params2.length (param_matrix jw params1 params2)
      / (params1.length + params2.length)

/-- Method `SimilarityScorer._calculate_return_type_score`. -/
def calculate_return_type_score (f1 f2 : Feature) : ℚ :=
  (7/10) * fuzzy_type_match f1.normalized_return_types f2.normalized_return_types
    + (3/10) * (if f1.async = f2.async then 1 else 0)

/-- The type-compatibility gate and dynamic weight redistribution of
`SimilarityScorer.get_similarity_score` (lines 175-207): `none` encodes the
incompatible-kinds fast exit. -/
def current_weights (t1 t2 : FeatureType) : Option SimilarityWeights :=
  let w := DEFAULT_SIMILARITY_WEIGHTS
  if t1 = FeatureType.CONSTRUCTOR ∧ t2 = FeatureType.CONSTRUCTOR then
    some { w with member_of := w.member_of + w.name, name := 0 }
  else if (t1 = FeatureType.FUNCTION ∨ t1 = FeatureType.CLASS_METHOD)
      ∧ (t2 = FeatureType.FUNCTION ∨ t2 = FeatureType.CLASS_METHOD) then
    some { w with member_of := w.member_of / 2, name := w.name + w.member_of / 2 }
  else if t1 = FeatureType.INSTANCE_METHOD ∧ t2 = FeatureType.INSTANCE_METHOD then
    some w
  else none

/-- Method `SimilarityScorer.get_similarity_score`. The final full weighted sum of
the source (over all five keys) is written as the preliminary three-field
sum plus the two contract-level contributions, which is the same sum. -/
def get_similarity_score (jw : String → String → ℚ) (feature1 feature2 : Feature) : ℚ :=
  match current_weights feature1.type feature2.type with
  | none => 0
  | some w =>
    let s_name := jw feature1.normalized_name feature2.normalized_name
    let s_member := jw feature1.normalized_member_of feature2.normalized_member_of
    let s_namespace := jw feature1.normalized_namespace feature2.normalized_namespace
    let preliminary_score :=
      s_name * w.name + s_member * w.member_of + s_namespace * w.namespace_
    let early_exit_threshold := (4/5) * (w.name + w.member_of + w.namespace_)
    if preliminary_score < early_exit_threshold then preliminary_score
    else
      preliminary_score
        + calculate_parameters_score jw feature1.parameters feature2.parameters
            * w.parameters
        + calculate_return_type_score feature1 feature2 * w.return_type

/-! ### matcher.py: match_features -/

/-- The base×target similarity matrix built in `match_features`. -/
def similarity_matrix (jw : String → String → ℚ) (base_features target_features : List Feature) :
    Fin base_features.length → Fin target_features.length → ℚ :=
  fun i j => get_similarity_score jw (base_features.get i) (target_features.get j)

/-- The assignments that survive the `score > alpha` filter of
`match_features` (the loop at `matcher.py` lines 97-102). -/
def kept_pairs (jw : String → String → ℚ)
    (base_features target_features : List Feature) (alpha : ℚ) :
    List (Fin base_features.length × Fin target_features.length) :=
  (linear_sum_assignment _ _ (similarity_matrix jw base_features target_features)).filter
    fun rc => decide (alpha < similarity_matrix jw base_features target_features rc.1 rc.2)

/-- Function `match_features(base, target, alpha)`. The source mutates its two list
arguments in place; the embedding returns
`(matches, remaining base, remaining target)` instead, so the source's
post-call state of `base_features`/`target_features` is the second/third
component. -/
def match_features (jw : String → String → ℚ)
    (base_features target_features : List Feature) (alpha : ℚ) :
    List (Feature × Feature × ℚ) × List Feature × List Feature :=
  if base_features = [] ∨ target_features = [] then
    ([], base_features, target_features)
  else
    let kept := kept_pairs jw base_features target_features alpha
    let matched := kept.map fun rc =>
      (base_features.get rc.1, target_features.get rc.2,
        similarity_matrix jw base_features target_features rc.1 rc.2)
    let base_rest := ((List.finRange base_features.length).filter
      fun i => decide (i ∉ kept.map Prod.fst)).map base_features.get
    let target_rest := ((List.finRange target_features.length).filter
      fun j => decide (j ∉ kept.map Prod.snd)).map target_features.get
    (matched, base_rest, target_rest)

/-! ### utils/stats.py -/

/-- Function `stats.calculate_precision`. -/
def calculate_precision (matched total_target : ℕ) : ℚ :=
  if 0 < total_target then (matched : ℚ) / total_target else 1

/-- Function `stats.calculate_recall`. -/
def calculate_recall (matched total_base : ℕ) : ℚ :=
  if 0 < total_base then (matched : ℚ) / total_base else 1

/-- Function `stats.calculate_f1`. -/
def calculate_f1 (precision_ recall_ : ℚ) : ℚ :=
  if 0 < precision_ + recall_ then 2 * (precision_ * recall_) / (precision_ + recall_)
  else 0

/-! ### matcher.py: _process_module (matching and scoring core) -/

/-- Constant `_NEAR_MISS_THRESHOLD` from `matcher.py`. -/
def NEAR_MISS_THRESHOLD : ℚ := 3/20

/-- The computational results of `_process_module` (its returned dict minus
the rendered text). -/
structure ProcessModuleResult where
  solid_matches_count : ℕ
  score : ℚ
  solid_matches : List (Feature × Feature × ℚ)
  potential_matches : List (Feature × Feature × ℚ)
  unmatched_base : List Feature
  unmatched_target : List Feature

/-- The matching and scoring core of `_process_module` (`matcher.py` lines
480-498): original counts, strict pass at `alpha`, lenient pass at
`beta = max(0, alpha - _NEAR_MISS_THRESHOLD)` on the leftovers, then the
report-type-dependent module score. -/
def process_module (jw : String → String → ℚ)
    (base_list target_list : List Feature) (alpha : ℚ) (report_type : String) :
    ProcessModuleResult :=
  let mod_base_count := base_list.length
  let mod_target_count := target_list.length
  let solid := match_features jw base_list target_list alpha
  let mod_solid_count := solid.1.length
  let beta := max 0 (alpha - NEAR_MISS_THRESHOLD)
  let potential := match_features jw solid.2.1 solid.2.2 beta
  let score :=
    if report_type = "symmetric" then
      let union_size : ℚ := (mod_base_count : ℚ) + mod_target_count - mod_solid_count
      if 0 < union_size then (mod_solid_count : ℚ) / union_size else 1
    else
      calculate_f1 (calculate_precision mod_solid_count mod_target_count)
        (calculate_recall mod_solid_count mod_base_count)
  { solid_matches_count := mod_solid_count
    score := score
    solid_matches := solid.1
    potential_matches := potential.1
    unmatched_base := potential.2.1
    unmatched_target := potential.2.2 }

/-! ### matcher.py: _fuzzy_match_namespaces

Python dicts are modelled as association lists (key order = insertion
order); `defaultdict(list)` extension is `extend_bucket`. -/

/-- Append `fs` to the bucket of key `k`, creating the bucket at the end if
absent (the `defaultdict(list)[k].extend(features)` idiom). -/
def extend_bucket (m : List (String × List Feature)) (k : String)
    (fs : List Feature) : List (String × List Feature) :=
  if m.any fun p => decide (p.1 = k) then
    m.map fun p => if p.1 = k then (p.1, p.2 ++ fs) else p
  else m ++ [(k, fs)]

/-- One comparison step of Python's `max` scan (keeps the earlier element on
ties, replaces only on strictly larger score). -/
def bnm_step (jw : String → String → ℚ) (t_ns : String)
    (acc : Option (String × ℚ)) (b_ns : String) : Option (String × ℚ) :=
  match acc with
  | none => some (b_ns, jw t_ns b_ns)
  | some (bb, bs) =>
    if bs < jw t_ns b_ns then some (b_ns, jw t_ns b_ns) else some (bb, bs)

/-- Python `max(((b_ns, jw(t_ns, b_ns)) for b_ns in base_namespaces), key=score)`:
first maximal element in list order. -/
def best_namespace_match (jw : String → String → ℚ) (t_ns : String)
    (base_namespaces : List String) : Option (String × ℚ) :=
  base_namespaces.foldl (bnm_step jw t_ns) none

/-- Where the loop body of `_fuzzy_match_namespaces` sends the features of
target key `t_ns`: `some k` = extended into bucket `k`, `none` = dropped.
The Python guard `best_score > 0.8 and best_match` is truthiness on the key
string, hence the `best ≠ ""` conjunct. -/
def remap_destination (jw : String → String → ℚ) (base_namespaces : List String)
    (t_ns : String) : Option String :=
  if t_ns ∈ base_namespaces then some t_ns
  else if base_namespaces = [] then some t_ns
  else
    match best_namespace_match jw t_ns base_namespaces with
    | some (best, best_score) =>
      if 4/5 < best_score ∧ best ≠ "" then some best else none
    | none => none

/-- Function `_fuzzy_match_namespaces(features_base, features_target)`: returns the
remapped target module map (the source writes it back into
`features_target` in place). `remapped_features` starts as
`{k: [] for k in features_base}`. -/
def fuzzy_match_namespaces (jw : String → String → ℚ)
    (features_base features_target : List (String × List Feature)) :
    List (String × List Feature) :=
  let base_namespaces := (features_base.map Prod.fst).mergeSort fun a b => decide (a ≤ b)
  features_target.foldl
    (fun remapped tp =>
      match remap_destination jw base_namespaces tp.1 with
      | some k => extend_bucket remapped k tp.2
      | none => remapped)
    (features_base.map fun p => (p.1, ([] : List Feature)))

/-- The feature list stored under key `k` of a module map (empty if the key
is absent). -/
def bucket (m : List (String × List Feature)) (k : String) : List Feature :=
  (m.lookup k).getD []

/-- A simple concrete string-similarity function (discrete metric), used to
instantiate the `jw` parameter in witnesses and counterexamples. It
satisfies every property of Jaro-Winkler that the theorems assume. -/
def jw_discrete : String → String → ℚ := fun s t => if s = t then 1 else 0

/-! ### Properties of the brute-force optimal assignment -/

theorem mem_fun_list : ∀ (n m : ℕ) (f : Fin n → Fin m), f ∈ fun_list n m
  | 0, _, f => List.mem_singleton.mpr (funext fun r => r.elim0)
  | n + 1, m, f => by
    have h := mem_fun_list n m (Fin.tail f)
    simp only [fun_list, List.mem_flatMap, List.mem_map]
    exact ⟨f 0, List.mem_finRange _, Fin.tail f, h, Fin.cons_self_tail f⟩

theorem mem_inj_list_iff {n m : ℕ} {f : Fin n → Fin m} :
    f ∈ inj_list n m ↔ Function.Injective f := by
  simp [inj_list, List.mem_filter, mem_fun_list]

theorem inj_list_ne_nil {n m : ℕ} (h : n ≤ m) : inj_list n m ≠ [] :=
  List.ne_nil_of_mem (mem_inj_list_iff.mpr (Fin.castLE_injective h))

theorem opt_assignment_injective {n m : ℕ} {M : Fin n → Fin m → ℚ}
    {f : Fin n → Fin m} (h : opt_assignment n m M = some f) :
    Function.Injective f :=
  mem_inj_list_iff.mp (List.argmax_mem (Option.mem_def.mpr h))

theorem le_opt_total {n m : ℕ} (M : Fin n → Fin m → ℚ) {f : Fin n → Fin m}
    (hf : Function.Injective f) :
    assignment_total n m M f ≤ opt_total n m M := by
  have hmem : f ∈ inj_list n m := mem_inj_list_iff.mpr hf
  unfold opt_total
  cases hopt : opt_assignment n m M with
  | none => exact absurd (List.argmax_eq_none.mp hopt) (List.ne_nil_of_mem hmem)
  | some g => exact List.le_of_mem_argmax hmem (Option.mem_def.mpr hopt)

theorem opt_total_exists {n m : ℕ} (h : n ≤ m) (M : Fin n → Fin m → ℚ) :
    ∃ f, Function.Injective f ∧ opt_total n m M = assignment_total n m M f := by
  cases hopt : opt_assignment n m M with
  | none => exact absurd (List.argmax_eq_none.mp hopt) (inj_list_ne_nil h)
  | some g =>
    exact ⟨g, opt_assignment_injective hopt, by unfold opt_total; rw [hopt]⟩

theorem opt_total_le {n m : ℕ} (h : n ≤ m) {M : Fin n → Fin m → ℚ} {B : ℚ}
    (hB : ∀ f, Function.Injective f → assignment_total n m M f ≤ B) :
    opt_total n m M ≤ B := by
  obtain ⟨f, hf, he⟩ := opt_total_exists h M
  rw [he]; exact hB f hf

theorem opt_total_le_card {n m : ℕ} (h : n ≤ m) {M : Fin n → Fin m → ℚ}
    (hM : ∀ i j, M i j ≤ 1) : opt_total n m M ≤ n := by
  refine opt_total_le h fun f _hf => ?_
  calc assignment_total n m M f ≤ ∑ _r : Fin n, (1 : ℚ) :=
        Finset.sum_le_sum fun i _ => hM i (f i)
    _ = n := by simp

theorem assignment_total_swap_le {n : ℕ} (M : Fin n → Fin n → ℚ)
    {f : Fin n → Fin n} (hf : Function.Injective f) :
    assignment_total n n (Function.swap M) f ≤ opt_total n n M := by
  have hb : Function.Bijective f := Finite.injective_iff_bijective.mp hf
  have hsum : assignment_total n n (Function.swap M) f
      = assignment_total n n M (Equiv.ofBijective f hb).symm := by
    unfold assignment_total
    refine Fintype.sum_equiv (Equiv.ofBijective f hb) _ _ fun c => ?_
    simp [Function.swap, Equiv.ofBijective_apply]
  rw [hsum]
  exact le_opt_total M (Equiv.ofBijective f hb).symm.injective

theorem opt_total_swap {n : ℕ} (M : Fin n → Fin n → ℚ) :
    opt_total n n (Function.swap M) = opt_total n n M := by
  apply le_antisymm
  · exact opt_total_le le_rfl fun f hf => assignment_total_swap_le M hf
  · exact opt_total_le le_rfl fun f hf =>
      assignment_total_swap_le (Function.swap M) hf

theorem opt_total_rect_swap {n m : ℕ} (M : Fin n → Fin m → ℚ) :
    opt_total_rect m n (Function.swap M) = opt_total_rect n m M := by
  unfold opt_total_rect
  rcases lt_trichotomy n m with h | h | h
  · rw [if_neg (by omega), if_pos h.le]
  · subst h; rw [if_pos le_rfl, if_pos le_rfl]; exact opt_total_swap M
  · rw [if_pos h.le, if_neg (by omega)]

theorem lsa_length_le {n m : ℕ} (M : Fin n → Fin m → ℚ) :
    (linear_sum_assignment n m M).length ≤ min n m := by
  unfold linear_sum_assignment
  by_cases h : n ≤ m
  · rw [if_pos h]
    cases hopt : opt_assignment n m M <;> simp_all <;> omega
  · rw [if_neg h]
    cases hopt : opt_assignment m n (Function.swap M) <;> simp_all <;> omega

theorem lsa_nodup_fst {n m : ℕ} (M : Fin n → Fin m → ℚ) :
    ((linear_sum_assignment n m M).map Prod.fst).Nodup := by
  unfold linear_sum_assignment
  by_cases h : n ≤ m
  · rw [if_pos h]
    cases hopt : opt_assignment n m M with
    | none => simp
    | some f => simpa [List.map_map, Function.comp_def] using List.nodup_finRange n
  · rw [if_neg h]
    cases hopt : opt_assignment m n (Function.swap M) with
    | none => simp
    | some g =>
      simpa [List.map_map, Function.comp_def] using
        (List.nodup_finRange m).map (opt_assignment_injective hopt)

theorem lsa_nodup_snd {n m : ℕ} (M : Fin n → Fin m → ℚ) :
    ((linear_sum_assignment n m M).map Prod.snd).Nodup := by
  unfold linear_sum_assignment
  by_cases h : n ≤ m
  · rw [if_pos h]
    cases hopt : opt_assignment n m M with
    | none => simp
    | some f =>
      simpa [List.map_map, Function.comp_def] using
        (List.nodup_finRange n).map (opt_assignment_injective hopt)
  · rw [if_neg h]
    cases hopt : opt_assignment m n (Function.swap M) with
    | none => simp
    | some g => simpa [List.map_map, Function.comp_def] using List.nodup_finRange m

/-! ### Properties of the similarity components -/

theorem type_pair_score_nonneg (t1 t2 : String) : 0 ≤ type_pair_score t1 t2 := by
  unfold type_pair_score
  split_ifs <;> norm_num

theorem type_pair_score_le_one (t1 t2 : String) : type_pair_score t1 t2 ≤ 1 := by
  unfold type_pair_score
  split_ifs <;> norm_num

theorem type_pair_score_comm (t1 t2 : String) :
    type_pair_score t1 t2 = type_pair_score t2 t1 := by
  unfold type_pair_score
  by_cases h1 : t1 = t2
  · have h1' : t2 = t1 := h1.symm
    simp only [if_pos h1, if_pos h1']
  · have h1' : ¬t2 = t1 := fun h => h1 h.symm
    simp only [if_neg h1, if_neg h1']
    by_cases h2 : ({t1, t2} : Finset String) = {"MAP", "OBJECT"}
        ∨ ({t1, t2} : Finset String) = {"MAP", "ANY"}
    · have h2' : ({t2, t1} : Finset String) = {"MAP", "OBJECT"}
          ∨ ({t2, t1} : Finset String) = {"MAP", "ANY"} := by
        rwa [Finset.pair_comm t2 t1]
      simp only [if_pos h2, if_pos h2']
    · have h2' : ¬(({t2, t1} : Finset String) = {"MAP", "OBJECT"}
          ∨ ({t2, t1} : Finset String) = {"MAP", "ANY"}) := by
        rwa [Finset.pair_comm t2 t1]
      simp only [if_neg h2, if_neg h2']
      by_cases h3 : t1 = "UNKNOWN" ∨ t1 = "ANY" ∨ t2 = "UNKNOWN" ∨ t2 = "ANY"
      · have h3' : t2 = "UNKNOWN" ∨ t2 = "ANY" ∨ t1 = "UNKNOWN" ∨ t1 = "ANY" := by
          tauto
        simp only [if_pos h3, if_pos h3']
      · have h3' : ¬(t2 = "UNKNOWN" ∨ t2 = "ANY" ∨ t1 = "UNKNOWN" ∨ t1 = "ANY") := by
          tauto
        simp only [if_neg h3, if_neg h3']
        by_cases h4 : t1 = "OBJECT" ∨ t2 = "OBJECT"
        · have h4' : t2 = "OBJECT" ∨ t1 = "OBJECT" := by tauto
          simp only [if_pos h4, if_pos h4']
        · have h4' : ¬(t2 = "OBJECT" ∨ t1 = "OBJECT") := by tauto
          simp only [if_neg h4, if_neg h4']

theorem fuzzy_type_match_nonneg (s1 s2 : Finset String) :
    0 ≤ fuzzy_type_match s1 s2 := by
  unfold fuzzy_type_match
  split_ifs with h1 h2 h3
  · norm_num
  · norm_num
  · norm_num
  · obtain ⟨a, ha⟩ := Finset.nonempty_of_ne_empty fun he => h2 (Or.inl he)
    obtain ⟨b, hb⟩ := Finset.nonempty_of_ne_empty fun he => h2 (Or.inr he)
    refine le_trans (type_pair_score_nonneg a b) ?_
    refine le_trans (Finset.le_sup' (fun t2 => type_pair_score a t2) hb) ?_
    exact Finset.le_sup' (fun t1 => s2.sup' _ fun t2 => type_pair_score t1 t2) ha

theorem fuzzy_type_match_le_one (s1 s2 : Finset String) :
    fuzzy_type_match s1 s2 ≤ 1 := by
  unfold fuzzy_type_match
  split_ifs with h1 h2 h3
  · norm_num
  · norm_num
  · norm_num
  · exact Finset.sup'_le _ _ fun t1 _ => Finset.sup'_le _ _ fun t2 _ =>
      type_pair_score_le_one t1 t2

theorem fuzzy_type_match_self (s : Finset String) : fuzzy_type_match s s = 1 := by
  unfold fuzzy_type_match
  rcases eq_or_ne s ∅ with h | h
  · rw [if_pos ⟨h, h⟩]
  · rw [if_neg (by tauto), dif_neg (by tauto), if_pos rfl]

theorem fuzzy_type_match_comm (s1 s2 : Finset String) :
    fuzzy_type_match s1 s2 = fuzzy_type_match s2 s1 := by
  unfold fuzzy_type_match
  by_cases h1 : s1 = ∅ <;> by_cases h2 : s2 = ∅
  · simp [h1, h2]
  · simp [h1, h2]
  · simp [h1, h2]
  · have hA : ¬(s1 = ∅ ∧ s2 = ∅) := by tauto
    have hA' : ¬(s2 = ∅ ∧ s1 = ∅) := by tauto
    have hB : ¬(s1 = ∅ ∨ s2 = ∅) := by tauto
    have hB' : ¬(s2 = ∅ ∨ s1 = ∅) := by tauto
    simp only [if_neg hA, if_neg hA', dif_neg hB, dif_neg hB']
    by_cases he : s1 = s2
    · have he' : s2 = s1 := he.symm
      simp only [if_pos he, if_pos he']
    · have he' : ¬s2 = s1 := fun h => he h.symm
      simp only [if_neg he, if_neg he']
      rw [Finset.sup'_comm]
      exact Finset.sup'_congr _ rfl fun c _ =>
        Finset.sup'_congr _ rfl fun b _ => type_pair_score_comm b c

theorem calculate_param_similarity_le_one (jw : String → String → ℚ)
    (hjw1 : ∀ s t, jw s t ≤ 1) (p1 p2 : Param) :
    calculate_param_similarity jw p1 p2 ≤ 1 := by
  unfold calculate_param_similarity
  have h1 := hjw1 p1.normalized_name p2.normalized_name
  have h2 := fuzzy_type_match_le_one p1.normalized_types p2.normalized_types
  have h3 : (if p1.is_optional = p2.is_optional then (1 : ℚ) else 0) ≤ 1 := by
    split_ifs <;> norm_num
  linarith

theorem calculate_param_similarity_self (jw : String → String → ℚ)
    (hrefl : ∀ s, jw s s = 1) (p : Param) :
    calculate_param_similarity jw p p = 1 := by
  unfold calculate_param_similarity
  rw [hrefl, fuzzy_type_match_self, if_pos rfl]
  norm_num

theorem calculate_param_similarity_comm (jw : String → String → ℚ)
    (hsym : ∀ s t, jw s t = jw t s) (p1 p2 : Param) :
    calculate_param_similarity jw p1 p2 = calculate_param_similarity jw p2 p1 := by
  unfold calculate_param_similarity
  rw [hsym p1.normalized_name p2.normalized_name, fuzzy_type_match_comm]
  by_cases ho : p1.is_optional = p2.is_optional
  · have ho' : p2.is_optional = p1.is_optional := ho.symm
    simp only [if_pos ho, if_pos ho']
  · have ho' : ¬p2.is_optional = p1.is_optional := fun hh => ho hh.symm
    simp only [if_neg ho, if_neg ho']

theorem opt_total_rect_le_min {n m : ℕ} {M : Fin n → Fin m → ℚ}
    (hM : ∀ i j, M i j ≤ 1) : opt_total_rect n m M ≤ (min n m : ℕ) := by
  unfold opt_total_rect
  by_cases h : n ≤ m
  · rw [if_pos h, Nat.min_eq_left h]
    exact opt_total_le_card h hM
  · rw [if_neg h, Nat.min_eq_right (le_of_lt (not_le.mp h))]
    exact opt_total_le_card (le_of_lt (not_le.mp h)) fun i j => hM j i

theorem calculate_parameters_score_le_one (jw : String → String → ℚ)
    (hjw1 : ∀ s t, jw s t ≤ 1) (ps1 ps2 : List Param) :
    calculate_parameters_score jw ps1 ps2 ≤ 1 := by
  unfold calculate_parameters_score
  split_ifs with h1 h2
  · norm_num
  · norm_num
  · have hne : ps1 ≠ [] ∧ ps2 ≠ [] := by tauto
    have hp : 0 < ps1.length := List.length_pos.mpr hne.1
    have hq : 0 < ps2.length := List.length_pos.mpr hne.2
    have hopt := opt_total_rect_le_min
      (M := param_matrix jw ps1 ps2)
      (fun i j => calculate_param_similarity_le_one jw hjw1 _ _)
    rw [div_le_one (by positivity)]
    have hmin : ((min ps1.length ps2.length : ℕ) : ℚ) * 2
        ≤ (ps1.length : ℚ) + ps2.length := by
      have : min ps1.length ps2.length * 2 ≤ ps1.length + ps2.length := by omega
      exact_mod_cast this
    linarith

theorem calculate_parameters_score_self (jw : String → String → ℚ)
    (hrefl : ∀ s, jw s s = 1) (hjw1 : ∀ s t, jw s t ≤ 1) (ps : List Param) :
    calculate_parameters_score jw ps ps = 1 := by
  unfold calculate_parameters_score
  rcases eq_or_ne ps [] with h | h
  · rw [if_pos ⟨h, h⟩]
  · rw [if_neg (by tauto), if_neg (by tauto)]
    have hle : opt_total_rect ps.length ps.length (param_matrix jw ps ps)
        ≤ (ps.length : ℚ) := by
      have := opt_total_rect_le_min (M := param_matrix jw ps ps)
        (fun i j => calculate_param_similarity_le_one jw hjw1 _ _)
      simpa using this
    have hge : (ps.length : ℚ)
        ≤ opt_total_rect ps.length ps.length (param_matrix jw ps ps) := by
      unfold opt_total_rect
      rw [if_pos le_rfl]
      have hid : assignment_total ps.length ps.length (param_matrix jw ps ps) id
          = (ps.length : ℚ) := by
        unfold assignment_total param_matrix
        simp [calculate_param_similarity_self jw hrefl]
      rw [← hid]
      exact le_opt_total _ Function.injective_id
    rw [le_antisymm hle hge]
    have hp : (ps.length : ℚ) ≠ 0 :=
      Nat.cast_ne_zero.mpr (List.length_pos.mpr h).ne' 
    field_simp
    ring

theorem calculate_parameters_score_comm (jw : String → String → ℚ)
    (hsym : ∀ s t, jw s t = jw t s) (ps1 ps2 : List Param) :
    calculate_parameters_score jw ps1 ps2 = calculate_parameters_score jw ps2 ps1 := by
  unfold calculate_parameters_score
  by_cases h1 : ps1 = [] <;> by_cases h2 : ps2 = []
  · simp [h1, h2]
  · simp [h1, h2]
  · simp [h1, h2]
  · rw [if_neg (by tauto), if_neg (by tauto), if_neg (by tauto), if_neg (by tauto)]
    have hM : param_matrix jw ps2 ps1 = Function.swap (param_matrix jw ps1 ps2) := by
      funext j i
      exact calculate_param_similarity_comm jw hsym _ _
    rw [hM, opt_total_rect_swap]
    ring

theorem calculate_return_type_score_le_one (f1 f2 : Feature) :
    calculate_return_type_score f1 f2 ≤ 1 := by
  unfold calculate_return_type_score
  have h1 := fuzzy_type_match_le_one f1.normalized_return_types f2.normalized_return_types
  have h2 : (if f1.async = f2.async then (1 : ℚ) else 0) ≤ 1 := by
    split_ifs <;> norm_num
  linarith

theorem calculate_return_type_score_eq_one {f1 f2 : Feature}
    (h1 : f1.normalized_return_types = f2.normalized_return_types)
    (h2 : f1.async = f2.async) : calculate_return_type_score f1 f2 = 1 := by
  unfold calculate_return_type_score
  rw [h1, fuzzy_type_match_self, if_pos h2]
  norm_num

theorem calculate_return_type_score_comm (f1 f2 : Feature) :
    calculate_return_type_score f1 f2 = calculate_return_type_score f2 f1 := by
  unfold calculate_return_type_score
  rw [fuzzy_type_match_comm]
  by_cases ho : f1.async = f2.async
  · have ho' : f2.async = f1.async := ho.symm
    simp only [if_pos ho, if_pos ho']
  · have ho' : ¬f2.async = f1.async := fun hh => ho hh.symm
    simp only [if_neg ho, if_neg ho']

theorem current_weights_cases {t1 t2 : FeatureType} {w : SimilarityWeights}
    (h : current_weights t1 t2 = some w) :
    w = ⟨0, 3/5, 3/20, 3/20, 1/10⟩ ∨ w = ⟨9/20, 3/20, 3/20, 3/20, 1/10⟩
      ∨ w = ⟨3/10, 3/10, 3/20, 3/20, 1/10⟩ := by
  cases t1 <;> cases t2 <;>
    norm_num [current_weights, DEFAULT_SIMILARITY_WEIGHTS] at h <;>
    simp_all [SimilarityWeights.mk.injEq] <;>
    norm_num [h]

theorem current_weights_comm (t1 t2 : FeatureType) :
    current_weights t1 t2 = current_weights t2 t1 := by
  cases t1 <;> cases t2 <;> rfl

/-! ### Exposed forms of get_similarity_score -/

theorem gss_none {jw : String → String → ℚ} {f1 f2 : Feature}
    (hw : current_weights f1.type f2.type = none) :
    get_similarity_score jw f1 f2 = 0 := by
  unfold get_similarity_score
  rw [hw]

theorem gss_some {jw : String → String → ℚ} {f1 f2 : Feature} {w : SimilarityWeights}
    (hw : current_weights f1.type f2.type = some w) :
    get_similarity_score jw f1 f2 =
      if jw f1.normalized_name f2.normalized_name * w.name
          + jw f1.normalized_member_of f2.normalized_member_of * w.member_of
          + jw f1.normalized_namespace f2.normalized_namespace * w.namespace_
          < (4/5) * (w.name + w.member_of + w.namespace_) then
        jw f1.normalized_name f2.normalized_name * w.name
          + jw f1.normalized_member_of f2.normalized_member_of * w.member_of
          + jw f1.normalized_namespace f2.normalized_namespace * w.namespace_
      else
        jw f1.normalized_name f2.normalized_name * w.name
          + jw f1.normalized_member_of f2.normalized_member_of * w.member_of
          + jw f1.normalized_namespace f2.normalized_namespace * w.namespace_
          + calculate_parameters_score jw f1.parameters f2.parameters * w.parameters
          + calculate_return_type_score f1 f2 * w.return_type := by
  unfold get_similarity_score
  rw [hw]

theorem get_similarity_score_le_one (jw : String → String → ℚ)
    (hjw1 : ∀ s t, jw s t ≤ 1) (f1 f2 : Feature) :
    get_similarity_score jw f1 f2 ≤ 1 := by
  cases hw : current_weights f1.type f2.type with
  | none => rw [gss_none hw]; norm_num
  | some w =>
    rw [gss_some hw]
    have ha := hjw1 f1.normalized_name f2.normalized_name
    have hb := hjw1 f1.normalized_member_of f2.normalized_member_of
    have hc := hjw1 f1.normalized_namespace f2.normalized_namespace
    have hp := calculate_parameters_score_le_one jw hjw1 f1.parameters f2.parameters
    have hr := calculate_return_type_score_le_one f1 f2
    rcases current_weights_cases hw with h | h | h <;> subst h <;>
      split_ifs with hlt <;> simp only at hlt ⊢ <;> linarith

theorem get_similarity_score_comm (jw : String → String → ℚ)
    (hsym : ∀ s t, jw s t = jw t s) (f1 f2 : Feature) :
    get_similarity_score jw f1 f2 = get_similarity_score jw f2 f1 := by
  cases hw : current_weights f1.type f2.type with
  | none =>
    rw [gss_none hw, gss_none (by rw [current_weights_comm]; exact hw)]
  | some w =>
    rw [gss_some hw, gss_some (show current_weights f2.type f1.type = some w by
      rw [current_weights_comm]; exact hw)]
    rw [hsym f1.normalized_name f2.normalized_name,
      hsym f1.normalized_member_of f2.normalized_member_of,
      hsym f1.normalized_namespace f2.normalized_namespace,
      calculate_parameters_score_comm jw hsym f1.parameters f2.parameters,
      calculate_return_type_score_comm f1 f2]

/-! ### Structural properties of match_features -/

theorem kept_pairs_nodup_fst (jw : String → String → ℚ)
    (base target : List Feature) (alpha : ℚ) :
    ((kept_pairs jw base target alpha).map Prod.fst).Nodup :=
  ((List.filter_sublist _).map Prod.fst).nodup (lsa_nodup_fst _)

theorem kept_pairs_nodup_snd (jw : String → String → ℚ)
    (base target : List Feature) (alpha : ℚ) :
    ((kept_pairs jw base target alpha).map Prod.snd).Nodup :=
  ((List.filter_sublist _).map Prod.snd).nodup (lsa_nodup_snd _)

theorem kept_pairs_length_le (jw : String → String → ℚ)
    (base target : List Feature) (alpha : ℚ) :
    (kept_pairs jw base target alpha).length ≤ min base.length target.length :=
  le_trans (List.length_filter_le _ _) (lsa_length_le _)

theorem kept_pairs_mem_score {jw : String → String → ℚ}
    {base target : List Feature} {alpha : ℚ}
    {rc : Fin base.length × Fin target.length}
    (h : rc ∈ kept_pairs jw base target alpha) :
    alpha < similarity_matrix jw base target rc.1 rc.2 := by
  have := (List.mem_filter.mp h).2
  simpa using this

theorem match_features_empty {jw : String → String → ℚ}
    {base target : List Feature} {alpha : ℚ} (h : base = [] ∨ target = []) :
    match_features jw base target alpha = ([], base, target) := by
  unfold match_features
  rw [if_pos h]

theorem match_features_def {jw : String → String → ℚ}
    {base target : List Feature} {alpha : ℚ} (hb : base ≠ []) (ht : target ≠ []) :
    match_features jw base target alpha =
      ((kept_pairs jw base target alpha).map fun rc =>
        (base.get rc.1, target.get rc.2, similarity_matrix jw base target rc.1 rc.2),
       ((List.finRange base.length).filter
         fun i => decide (i ∉ (kept_pairs jw base target alpha).map Prod.fst)).map base.get,
       ((List.finRange target.length).filter
         fun j => decide (j ∉ (kept_pairs jw base target alpha).map Prod.snd)).map target.get) := by
  unfold match_features
  rw [if_neg (by simp [hb, ht])]

theorem match_features_length_le (jw : String → String → ℚ)
    (base target : List Feature) (alpha : ℚ) :
    (match_features jw base target alpha).1.length
      ≤ min base.length target.length := by
  by_cases hb : base = []
  · rw [match_features_empty (Or.inl hb)]; simp
  · by_cases ht : target = []
    · rw [match_features_empty (Or.inr ht)]; simp
    · rw [match_features_def hb ht]
      simpa using kept_pairs_length_le jw base target alpha

theorem match_features_mem_matches {jw : String → String → ℚ}
    {base target : List Feature} {alpha : ℚ}
    {x : Feature × Feature × ℚ} (hx : x ∈ (match_features jw base target alpha).1) :
    alpha < x.2.2 ∧ x.2.2 = get_similarity_score jw x.1 x.2.1
      ∧ x.1 ∈ base ∧ x.2.1 ∈ target := by
  by_cases hb : base = []
  · rw [match_features_empty (Or.inl hb)] at hx; simp at hx
  · by_cases ht : target = []
    · rw [match_features_empty (Or.inr ht)] at hx; simp at hx
    · rw [match_features_def hb ht] at hx
      obtain ⟨rc, hrc, hx⟩ := List.mem_map.mp hx
      subst hx
      exact ⟨kept_pairs_mem_score hrc, rfl, List.get_mem base rc.1.1 rc.1.2,
        List.get_mem target rc.2.1 rc.2.2⟩

theorem match_features_rest_sublist (jw : String → String → ℚ)
    (base target : List Feature) (alpha : ℚ) :
    (match_features jw base target alpha).2.1.Sublist base
      ∧ (match_features jw base target alpha).2.2.Sublist target := by
  by_cases hb : base = []
  · rw [match_features_empty (Or.inl hb)]
    exact ⟨List.Sublist.refl base, List.Sublist.refl target⟩
  · by_cases ht : target = []
    · rw [match_features_empty (Or.inr ht)]
      exact ⟨List.Sublist.refl base, List.Sublist.refl target⟩
    · rw [match_features_def hb ht]
      constructor
      · have h1 := (List.filter_sublist (l := List.finRange base.length)
          (p := fun i => decide (i ∉ (kept_pairs jw base target alpha).map Prod.fst))).map base.get
        rwa [List.finRange_map_get] at h1
      · have h1 := (List.filter_sublist (l := List.finRange target.length)
          (p := fun j => decide (j ∉ (kept_pairs jw base target alpha).map Prod.snd))).map target.get
        rwa [List.finRange_map_get] at h1

theorem match_features_matched_absent {jw : String → String → ℚ}
    {base target : List Feature} {alpha : ℚ}
    (hnb : base.Nodup) (hnt : target.Nodup)
    {x : Feature × Feature × ℚ} (hx : x ∈ (match_features jw base target alpha).1) :
    x.1 ∉ (match_features jw base target alpha).2.1
      ∧ x.2.1 ∉ (match_features jw base target alpha).2.2 := by
  by_cases hb : base = []
  · rw [match_features_empty (Or.inl hb)] at hx; simp at hx
  · by_cases ht : target = []
    · rw [match_features_empty (Or.inr ht)] at hx; simp at hx
    · rw [match_features_def hb ht] at hx ⊢
      obtain ⟨rc, hrc, hx⟩ := List.mem_map.mp hx
      subst hx
      constructor
      · intro hmem
        obtain ⟨i, hi, hgi⟩ := List.mem_map.mp hmem
        have hi2 := (List.mem_filter.mp hi).2
        simp only [decide_eq_true_eq] at hi2
        have : i = rc.1 := List.nodup_iff_injective_get.mp hnb hgi
        subst this
        exact hi2 (List.mem_map.mpr ⟨rc, hrc, rfl⟩)
      · intro hmem
        obtain ⟨j, hj, hgj⟩ := List.mem_map.mp hmem
        have hj2 := (List.mem_filter.mp hj).2
        simp only [decide_eq_true_eq] at hj2
        have : j = rc.2 := List.nodup_iff_injective_get.mp hnt hgj
        subst this
        exact hj2 (List.mem_map.mpr ⟨rc, hrc, rfl⟩)

theorem match_features_unmatched_present_base {jw : String → String → ℚ}
    {base target : List Feature} {alpha : ℚ} {f : Feature} (hf : f ∈ base)
    (hun : ∀ x ∈ (match_features jw base target alpha).1, x.1 ≠ f) :
    f ∈ (match_features jw base target alpha).2.1 := by
  by_cases hb : base = []
  · rw [match_features_empty (Or.inl hb)]; exact hf
  · by_cases ht : target = []
    · rw [match_features_empty (Or.inr ht)]; exact hf
    · rw [match_features_def hb ht] at hun ⊢
      obtain ⟨i, hgi⟩ := List.mem_iff_get.mp hf
      by_cases hik : i ∈ (kept_pairs jw base target alpha).map Prod.fst
      · obtain ⟨rc, hrc, hrci⟩ := List.mem_map.mp hik
        exact absurd (hrci ▸ hgi)
          (hun (base.get rc.1, target.get rc.2,
            similarity_matrix jw base target rc.1 rc.2)
            (List.mem_map.mpr ⟨rc, hrc, rfl⟩))
      · exact List.mem_map.mpr ⟨i,
          List.mem_filter.mpr ⟨List.mem_finRange i, by simpa using hik⟩, hgi⟩

theorem match_features_unmatched_present_target {jw : String → String → ℚ}
    {base target : List Feature} {alpha : ℚ} {f : Feature} (hf : f ∈ target)
    (hun : ∀ x ∈ (match_features jw base target alpha).1, x.2.1 ≠ f) :
    f ∈ (match_features jw base target alpha).2.2 := by
  by_cases hb : base = []
  · rw [match_features_empty (Or.inl hb)]; exact hf
  · by_cases ht : target = []
    · rw [match_features_empty (Or.inr ht)]; exact hf
    · rw [match_features_def hb ht] at hun ⊢
      obtain ⟨j, hgj⟩ := List.mem_iff_get.mp hf
      by_cases hjk : j ∈ (kept_pairs jw base target alpha).map Prod.snd
      · obtain ⟨rc, hrc, hrcj⟩ := List.mem_map.mp hjk
        exact absurd (hrcj ▸ hgj)
          (hun (base.get rc.1, target.get rc.2,
            similarity_matrix jw base target rc.1 rc.2)
            (List.mem_map.mpr ⟨rc, hrc, rfl⟩))
      · exact List.mem_map.mpr ⟨j,
          List.mem_filter.mpr ⟨List.mem_finRange j, by simpa using hjk⟩, hgj⟩

theorem match_features_matches_nodup {jw : String → String → ℚ}
    {base target : List Feature} {alpha : ℚ}
    (hnb : base.Nodup) (hnt : target.Nodup) :
    ((match_features jw base target alpha).1.map fun x => x.1).Nodup
      ∧ ((match_features jw base target alpha).1.map fun x => x.2.1).Nodup := by
  by_cases hb : base = []
  · rw [match_features_empty (Or.inl hb)]; simp
  · by_cases ht : target = []
    · rw [match_features_empty (Or.inr ht)]; simp
    · rw [match_features_def hb ht]
      constructor
      · have h1 : (((kept_pairs jw base target alpha).map fun rc =>
            (base.get rc.1, target.get rc.2,
              similarity_matrix jw base target rc.1 rc.2)).map fun x => x.1)
            = ((kept_pairs jw base target alpha).map Prod.fst).map base.get := by
          simp [List.map_map, Function.comp_def]
        rw [h1]
        exact (kept_pairs_nodup_fst jw base target alpha).map
          (List.nodup_iff_injective_get.mp hnb)
      · have h1 : (((kept_pairs jw base target alpha).map fun rc =>
            (base.get rc.1, target.get rc.2,
              similarity_matrix jw base target rc.1 rc.2)).map fun x => x.2.1)
            = ((kept_pairs jw base target alpha).map Prod.snd).map target.get := by
          simp [List.map_map, Function.comp_def]
        rw [h1]
        exact (kept_pairs_nodup_snd jw base target alpha).map
          (List.nodup_iff_injective_get.mp hnt)

/-! ### Properties of _fuzzy_match_namespaces -/

theorem lookup_cons_self {β : Type} (a : String) (v : β) (t : List (String × β)) :
    List.lookup a ((a, v) :: t) = some v := by
  simp [List.lookup]

theorem lookup_cons_ne {β : Type} {k a : String} (h : k ≠ a) (v : β)
    (t : List (String × β)) :
    List.lookup k ((a, v) :: t) = List.lookup k t := by
  simp only [List.lookup]
  rw [beq_eq_false_iff_ne.mpr h]

theorem lookup_map_extend_self (k : String) (fs : List Feature) :
    ∀ t : List (String × List Feature),
      (t.map fun p => if p.1 = k then (p.1, p.2 ++ fs) else p).lookup k
        = (t.lookup k).map (· ++ fs)
  | [] => rfl
  | (a, v) :: t => by
    by_cases h : a = k
    · subst h
      rw [List.map_cons, if_pos rfl, lookup_cons_self, lookup_cons_self]
      rfl
    · have hk : k ≠ a := fun hh => h hh.symm
      rw [List.map_cons, if_neg h, lookup_cons_ne hk, lookup_cons_ne hk]
      exact lookup_map_extend_self k fs t

theorem lookup_map_extend_ne {k k' : String} (h : k' ≠ k) (fs : List Feature) :
    ∀ t : List (String × List Feature),
      (t.map fun p => if p.1 = k then (p.1, p.2 ++ fs) else p).lookup k'
        = t.lookup k'
  | [] => rfl
  | (a, v) :: t => by
    by_cases ha : a = k
    · subst ha
      rw [List.map_cons, if_pos rfl, lookup_cons_ne h, lookup_cons_ne h]
      exact lookup_map_extend_ne h fs t
    · rw [List.map_cons, if_neg ha]
      by_cases hk : k' = a
      · subst hk
        rw [lookup_cons_self, lookup_cons_self]
      · rw [lookup_cons_ne hk, lookup_cons_ne hk]
        exact lookup_map_extend_ne h fs t

theorem lookup_eq_none_of_any_false {k : String} :
    ∀ {m : List (String × List Feature)},
      (m.any fun p => decide (p.1 = k)) = false → m.lookup k = none
  | [], _ => rfl
  | (a, v) :: t, h => by
    simp only [List.any_cons, Bool.or_eq_false_iff, decide_eq_false_iff_not] at h
    rw [lookup_cons_ne (fun hh : k = a => h.1 hh.symm)]
    exact lookup_eq_none_of_any_false (by simpa using h.2)

theorem lookup_append_right {k : String} {m l : List (String × List Feature)}
    (h : m.lookup k = none) : (m ++ l).lookup k = l.lookup k := by
  induction m with
  | nil => rfl
  | cons p t ih =>
    obtain ⟨a, v⟩ := p
    rcases Decidable.em (k = a) with he | he
    · subst he
      rw [lookup_cons_self] at h
      cases h
    · rw [lookup_cons_ne he] at h
      rw [List.cons_append, lookup_cons_ne he]
      exact ih h

theorem lookup_isSome_of_any {k : String} :
    ∀ {m : List (String × List Feature)},
      (m.any fun p => decide (p.1 = k)) = true → (m.lookup k).isSome = true
  | [], h => by cases h
  | (a, v) :: t, h => by
    by_cases he : k = a
    · subst he
      rw [lookup_cons_self]
      rfl
    · rw [lookup_cons_ne he]
      apply lookup_isSome_of_any
      simp only [List.any_cons, Bool.or_eq_true, decide_eq_true_eq] at h
      rcases h with h | h
      · exact absurd h fun hh => he hh.symm
      · simpa using h

theorem bucket_extend_self (m : List (String × List Feature)) (k : String)
    (fs : List Feature) : bucket (extend_bucket m k fs) k = bucket m k ++ fs := by
  unfold bucket extend_bucket
  by_cases h : (m.any fun p => decide (p.1 = k)) = true
  · rw [if_pos h, lookup_map_extend_self]
    cases hl : m.lookup k with
    | none =>
      have hs := lookup_isSome_of_any h
      rw [hl] at hs
      cases hs
    | some v => simp
  · rw [if_neg h]
    have hnone := lookup_eq_none_of_any_false (Bool.eq_false_iff.mpr h)
    rw [lookup_append_right hnone, hnone, lookup_cons_self]
    rfl

theorem lookup_append_left {k : String} {m l : List (String × List Feature)}
    {v : List Feature} (h : m.lookup k = some v) : (m ++ l).lookup k = some v := by
  induction m with
  | nil => cases h
  | cons p t ih =>
    obtain ⟨a, w⟩ := p
    rcases Decidable.em (k = a) with he | he
    · subst he
      rw [lookup_cons_self] at h
      rw [List.cons_append, lookup_cons_self]
      exact h
    · rw [lookup_cons_ne he] at h
      rw [List.cons_append, lookup_cons_ne he]
      exact ih h

theorem bucket_extend_ne (m : List (String × List Feature)) {k k' : String}
    (h : k' ≠ k) (fs : List Feature) :
    bucket (extend_bucket m k fs) k' = bucket m k' := by
  unfold bucket extend_bucket
  by_cases ha : (m.any fun p => decide (p.1 = k)) = true
  · rw [if_pos ha, lookup_map_extend_ne h]
  · rw [if_neg ha]
    cases hl : m.lookup k' with
    | some v => rw [lookup_append_left hl]
    | none =>
      rw [lookup_append_right hl, lookup_cons_ne h]
      rfl

theorem bnm_fold_spec (jw : String → String → ℚ) (t : String) :
    ∀ (l : List String) (bb : String) (bs : ℚ), jw t bb = bs →
      ∃ b s, l.foldl (bnm_step jw t) (some (bb, bs)) = some (b, s)
        ∧ (b = bb ∨ b ∈ l) ∧ jw t b = s ∧ bs ≤ s ∧ ∀ x ∈ l, jw t x ≤ s
  | [], bb, bs, hbb => ⟨bb, bs, rfl, Or.inl rfl, hbb, le_rfl, by simp⟩
  | a :: l, bb, bs, hbb => by
    rw [List.foldl_cons]
    by_cases hlt : bs < jw t a
    · have hstep : bnm_step jw t (some (bb, bs)) a = some (a, jw t a) :=
        if_pos hlt
      rw [hstep]
      obtain ⟨b, s, he, hmem, hjs, hle, hall⟩ := bnm_fold_spec jw t l a (jw t a) rfl
      refine ⟨b, s, he, ?_, hjs, le_of_lt (lt_of_lt_of_le hlt hle), ?_⟩
      · rcases hmem with h | h
        · exact Or.inr (h ▸ List.mem_cons_self a l)
        · exact Or.inr (List.mem_cons_of_mem a h)
      · intro x hx
        rcases List.mem_cons.mp hx with h | h
        · exact h ▸ hle
        · exact hall x h
    · have hstep : bnm_step jw t (some (bb, bs)) a = some (bb, bs) :=
        if_neg hlt
      rw [hstep]
      obtain ⟨b, s, he, hmem, hjs, hle, hall⟩ := bnm_fold_spec jw t l bb bs hbb
      refine ⟨b, s, he, ?_, hjs, hle, ?_⟩
      · rcases hmem with h | h
        · exact Or.inl h
        · exact Or.inr (List.mem_cons_of_mem a h)
      · intro x hx
        rcases List.mem_cons.mp hx with h | h
        · subst h
          exact le_trans (le_of_not_lt hlt) hle
        · exact hall x h

theorem best_namespace_match_spec (jw : String → String → ℚ) (t : String)
    {l : List String} (hl : l ≠ []) :
    ∃ b s, best_namespace_match jw t l = some (b, s)
      ∧ b ∈ l ∧ jw t b = s ∧ ∀ x ∈ l, jw t x ≤ s := by
  cases l with
  | nil => exact absurd rfl hl
  | cons a l' =>
    unfold best_namespace_match
    rw [List.foldl_cons]
    have h0 : bnm_step jw t none a = some (a, jw t a) := rfl
    rw [h0]
    obtain ⟨b, s, he, hmem, hjs, hle, hall⟩ := bnm_fold_spec jw t l' a (jw t a) rfl
    refine ⟨b, s, he, ?_, hjs, ?_⟩
    · rcases hmem with h | h
      · exact h ▸ List.mem_cons_self a l'
      · exact List.mem_cons_of_mem a h
    · intro x hx
      rcases List.mem_cons.mp hx with h | h
      · exact h ▸ hle
      · exact hall x h

theorem bucket_init (fb : List (String × List Feature)) (k : String) :
    bucket (fb.map fun p => (p.1, ([] : List Feature))) k = [] := by
  induction fb with
  | nil => rfl
  | cons p t ih =>
    by_cases h : k = p.1
    · subst h
      unfold bucket
      rw [List.map_cons, lookup_cons_self]
      rfl
    · unfold bucket at ih ⊢
      rw [List.map_cons, lookup_cons_ne h]
      exact ih

theorem fuzzy_fold_bucket (jw : String → String → ℚ) (bns : List String)
    (k : String) :
    ∀ (l acc : List (String × List Feature)),
      bucket (l.foldl (fun remapped tp =>
          match remap_destination jw bns tp.1 with
          | some k' => extend_bucket remapped k' tp.2
          | none => remapped) acc) k
        = bucket acc k
          ++ (l.filter fun tp =>
              decide (remap_destination jw bns tp.1 = some k)).flatMap
              (fun tp => tp.2)
  | [], acc => by simp
  | tp :: l, acc => by
    rw [List.foldl_cons]
    cases hd : remap_destination jw bns tp.1 with
    | none =>
      simp only [hd]
      rw [List.filter_cons_of_neg (by simp [hd]), fuzzy_fold_bucket jw bns k l acc]
    | some k2 =>
      simp only [hd]
      by_cases hk : k2 = k
      · subst hk
        rw [List.filter_cons_of_pos (by simp [hd]),
          fuzzy_fold_bucket jw bns k2 l (extend_bucket acc k2 tp.2),
          bucket_extend_self]
        simp
      · rw [List.filter_cons_of_neg (by simp [hd, hk]),
          fuzzy_fold_bucket jw bns k l (extend_bucket acc k2 tp.2),
          bucket_extend_ne acc (fun hh : k = k2 => hk hh.symm)]

/-- The content of every bucket of the remapped target map: exactly the
features of the target entries whose key is sent to `k`, in target order
(base keys contribute only empty initial buckets). -/
theorem fuzzy_bucket (jw : String → String → ℚ)
    (fb ft : List (String × List Feature)) (k : String) :
    bucket (fuzzy_match_namespaces jw fb ft) k
      = (ft.filter fun tp =>
          decide (remap_destination jw
            ((fb.map Prod.fst).mergeSort fun a b => decide (a ≤ b)) tp.1
            = some k)).flatMap (fun tp => tp.2) := by
  unfold fuzzy_match_namespaces
  rw [fuzzy_fold_bucket, bucket_init]
  rfl

/-! ### Spec-side definitions for claim C7 (refinement comparison)

`type_set_match_claim` transcribes the claim's wording of `type_set_match`
(0.4 tier at {MAP,OBJECT} / {MAP,UNKNOWN}); `type_set_match_amended`
transcribes the amended wording (0.4 tier at {MAP,OBJECT} / {MAP,ANY},
matching the source). Both are written independently of the source
definition: tier conditions phrased as in the claim and the outer case
split in the claim's order. -/

/-- Claimed per-pair tariff, as the claim states it. -/
def type_pair_score_claim (t1 t2 : String) : ℚ :=
  if t1 = t2 then 1
  else if ({t1, t2} : Finset String) = {"MAP", "OBJECT"}
      ∨ ({t1, t2} : Finset String) = {"MAP", "UNKNOWN"} then 2/5
  else if t1 ∈ (["UNKNOWN", "ANY"] : List String)
      ∨ t2 ∈ (["UNKNOWN", "ANY"] : List String) then 3/10
  else if t1 = "OBJECT" ∨ t2 = "OBJECT" then 1/5
  else 0

/-- The claim's `type_set_match`, in the claim's case order. -/
def type_set_match_claim (S1 S2 : Finset String) : ℚ :=
  if h1 : S1 = S2 ∧ S1.Nonempty then 1
  else if S1 = ∅ ∧ S2 = ∅ then 1
  else if h2 : S1 = ∅ ∨ S2 = ∅ then 0
  else
    S1.sup' (Finset.nonempty_of_ne_empty fun he => h2 (Or.inl he)) fun t1 =>
      S2.sup' (Finset.nonempty_of_ne_empty fun he => h2 (Or.inr he)) fun t2 =>
        type_pair_score_claim t1 t2

/-- Amended per-pair tariff: the 0.4 tier holds for {MAP,OBJECT} and
{MAP,ANY}. -/
def type_pair_score_amended (t1 t2 : String) : ℚ :=
  if t1 = t2 then 1
  else if ({t1, t2} : Finset String) = {"MAP", "OBJECT"}
      ∨ ({t1, t2} : Finset String) = {"MAP", "ANY"} then 2/5
  else if t1 ∈ (["UNKNOWN", "ANY"] : List String)
      ∨ t2 ∈ (["UNKNOWN", "ANY"] : List String) then 3/10
  else if t1 = "OBJECT" ∨ t2 = "OBJECT" then 1/5
  else 0

/-- The amended claim's `type_set_match`. -/
def type_set_match_amended (S1 S2 : Finset String) : ℚ :=
  if h1 : S1 = S2 ∧ S1.Nonempty then 1
  else if S1 = ∅ ∧ S2 = ∅ then 1
  else if h2 : S1 = ∅ ∨ S2 = ∅ then 0
  else
    S1.sup' (Finset.nonempty_of_ne_empty fun he => h2 (Or.inl he)) fun t1 =>
      S2.sup' (Finset.nonempty_of_ne_empty fun he => h2 (Or.inr he)) fun t2 =>
        type_pair_score_amended t1 t2

/-! ### Concrete objects for witnesses and counterexamples -/

/-- A concrete parameter for witnesses. -/
def par_a : Param := ⟨"x", {"STRING"}, false⟩

/-- A concrete instance-method feature for witnesses. -/
def feat_method (nm : String) : Feature :=
  ⟨nm, "cls", "mod", FeatureType.INSTANCE_METHOD, [par_a], {"STRING"}, false⟩

/-- A concrete constructor feature for witnesses. -/
def feat_constructor : Feature :=
  ⟨"init", "cls", "mod", FeatureType.CONSTRUCTOR, [], ∅, false⟩

/-- A concrete feature used by the C4 counterexample. -/
def c4_feature : Feature :=
  ⟨"lost", "null", "zzzz", FeatureType.FUNCTION, [], ∅, false⟩

theorem jw_discrete_refl : ∀ s, jw_discrete s s = 1 := fun s => if_pos rfl

theorem jw_discrete_le_one : ∀ s t, jw_discrete s t ≤ 1 := by
  intro s t
  unfold jw_discrete
  split_ifs <;> norm_num

theorem jw_discrete_nonneg : ∀ s t, 0 ≤ jw_discrete s t := by
  intro s t
  unfold jw_discrete
  split_ifs <;> norm_num

theorem jw_discrete_symm : ∀ s t, jw_discrete s t = jw_discrete t s := by
  intro s t
  unfold jw_discrete
  by_cases h : s = t
  · rw [if_pos h, if_pos h.symm]
  · rw [if_neg h, if_neg fun hh => h hh.symm]

/-! ### Claim C7 -/

theorem type_pair_score_amended_eq (t1 t2 : String) :
    type_pair_score_amended t1 t2 = type_pair_score t1 t2 := by
  unfold type_pair_score_amended type_pair_score
  by_cases h1 : t1 = t2
  · simp only [if_pos h1]
  · simp only [if_neg h1]
    by_cases h2 : ({t1, t2} : Finset String) = {"MAP", "OBJECT"}
        ∨ ({t1, t2} : Finset String) = {"MAP", "ANY"}
    · simp only [if_pos h2]
    · simp only [if_neg h2]
      by_cases h3 : t1 = "UNKNOWN" ∨ t1 = "ANY" ∨ t2 = "UNKNOWN" ∨ t2 = "ANY"
      · have h3' : t1 ∈ (["UNKNOWN", "ANY"] : List String)
            ∨ t2 ∈ (["UNKNOWN", "ANY"] : List String) := by
          simp only [List.mem_cons, List.not_mem_nil, or_false, List.mem_singleton]
          tauto
        simp only [if_pos h3, if_pos h3']
      · have h3' : ¬(t1 ∈ (["UNKNOWN", "ANY"] : List String)
            ∨ t2 ∈ (["UNKNOWN", "ANY"] : List String)) := by
          simp only [List.mem_cons, List.not_mem_nil, or_false, List.mem_singleton]
          tauto
        simp only [if_neg h3, if_neg h3']

/-- C7 (counterexample): on the tag sets {MAP} and {UNKNOWN} the claim's
`type_set_match` formula yields 0.4, but the source's `_fuzzy_type_match`
yields 0.3 — in the source the 0.4 tier is {MAP,OBJECT} / {MAP,ANY}, not
{MAP,OBJECT} / {MAP,UNKNOWN}. -/
theorem C7_counterexample :
    fuzzy_type_match {"MAP"} {"UNKNOWN"} = 3/10
      ∧ type_set_match_claim {"MAP"} {"UNKNOWN"} = 2/5
      ∧ fuzzy_type_match {"MAP"} {"UNKNOWN"}
          ≠ type_set_match_claim {"MAP"} {"UNKNOWN"} := by
  have h1 : fuzzy_type_match {"MAP"} {"UNKNOWN"} = 3/10 := by
    unfold fuzzy_type_match
    rw [if_neg (by decide), dif_neg (by decide), if_neg (by decide),
      Finset.sup'_singleton, Finset.sup'_singleton]
    unfold type_pair_score
    rw [if_neg (by decide), if_neg (by decide), if_pos (by decide)]
  have h2 : type_set_match_claim {"MAP"} {"UNKNOWN"} = 2/5 := by
    unfold type_set_match_claim
    rw [dif_neg (by decide), if_neg (by decide), dif_neg (by decide),
      Finset.sup'_singleton, Finset.sup'_singleton]
    unfold type_pair_score_claim
    rw [if_neg (by decide), if_pos (by decide)]
  refine ⟨h1, h2, ?_⟩
  rw [h1, h2]
  norm_num

/-- C7 (amended): the source's `_fuzzy_type_match` satisfies the claim's
case analysis with the 0.4 tier corrected to {MAP,OBJECT} / {MAP,ANY}:
equal non-empty sets give 1.0, exactly one empty set gives 0.0, both empty
gives 1.0, and otherwise the result is the maximum of the per-pair tariff
over all tag pairs. -/
theorem C7_type_set_match :
    ∀ S1 S2 : Finset String,
      fuzzy_type_match S1 S2 = type_set_match_amended S1 S2 := by
  intro S1 S2
  unfold fuzzy_type_match type_set_match_amended
  by_cases h1 : S1 = ∅ <;> by_cases h2 : S2 = ∅
  · have hne : ¬(S1 = S2 ∧ S1.Nonempty) := by
      rintro ⟨_, hne⟩
      exact Finset.not_nonempty_empty (h1 ▸ hne)
    rw [if_pos ⟨h1, h2⟩, dif_neg hne, if_pos ⟨h1, h2⟩]
  · have hne : ¬(S1 = S2 ∧ S1.Nonempty) := by
      rintro ⟨he, _⟩
      exact h2 (he ▸ h1)
    rw [if_neg (by tauto), dif_pos (Or.inl h1), dif_neg hne,
      if_neg (by tauto), dif_pos (Or.inl h1)]
  · have hne : ¬(S1 = S2 ∧ S1.Nonempty) := by
      rintro ⟨he, _⟩
      exact h1 (he ▸ h2)
    rw [if_neg (by tauto), dif_pos (Or.inr h2), dif_neg hne,
      if_neg (by tauto), dif_pos (Or.inr h2)]
  · rw [if_neg (by tauto), dif_neg (by tauto)]
    by_cases he : S1 = S2
    · rw [if_pos he, dif_pos ⟨he, Finset.nonempty_of_ne_empty h1⟩]
    · rw [if_neg he, dif_neg (by tauto), if_neg (by tauto), dif_neg (by tauto)]
      exact Finset.sup'_congr _ rfl fun a _ =>
        Finset.sup'_congr _ rfl fun b _ => (type_pair_score_amended_eq a b).symm

/-! ### Claims C2, C3, C5, C10 -/

theorem current_weights_isSome_iff (t1 t2 : FeatureType) :
    (current_weights t1 t2).isSome = true ↔
      ((t1 = FeatureType.CONSTRUCTOR ∧ t2 = FeatureType.CONSTRUCTOR)
        ∨ ((t1 = FeatureType.FUNCTION ∨ t1 = FeatureType.CLASS_METHOD)
            ∧ (t2 = FeatureType.FUNCTION ∨ t2 = FeatureType.CLASS_METHOD))
        ∨ (t1 = FeatureType.INSTANCE_METHOD ∧ t2 = FeatureType.INSTANCE_METHOD)) := by
  cases t1 <;> cases t2 <;> simp [current_weights]

/-- C2: features with incompatible kinds (not both CONSTRUCTOR, not both in
{FUNCTION, CLASS_METHOD}, not both INSTANCE_METHOD) score exactly 0.0; and
compatible-kind features with identical normalized name, member_of and
namespace, identical parameter lists, identical return-type sets and equal
async flags score exactly 1.0 (for any similarity function `jw` with
`jw s s = 1` and `jw s t ≤ 1`, as Jaro-Winkler has). -/
theorem C2_identity_and_gate (jw : String → String → ℚ)
    (hrefl : ∀ s, jw s s = 1) (hjw1 : ∀ s t, jw s t ≤ 1) (f1 f2 : Feature) :
    (¬((f1.type = FeatureType.CONSTRUCTOR ∧ f2.type = FeatureType.CONSTRUCTOR)
        ∨ ((f1.type = FeatureType.FUNCTION ∨ f1.type = FeatureType.CLASS_METHOD)
            ∧ (f2.type = FeatureType.FUNCTION ∨ f2.type = FeatureType.CLASS_METHOD))
        ∨ (f1.type = FeatureType.INSTANCE_METHOD ∧ f2.type = FeatureType.INSTANCE_METHOD))
      → get_similarity_score jw f1 f2 = 0)
    ∧ (((f1.type = FeatureType.CONSTRUCTOR ∧ f2.type = FeatureType.CONSTRUCTOR)
        ∨ ((f1.type = FeatureType.FUNCTION ∨ f1.type = FeatureType.CLASS_METHOD)
            ∧ (f2.type = FeatureType.FUNCTION ∨ f2.type = FeatureType.CLASS_METHOD))
        ∨ (f1.type = FeatureType.INSTANCE_METHOD ∧ f2.type = FeatureType.INSTANCE_METHOD))
      → f1.normalized_name = f2.normalized_name
      → f1.normalized_member_of = f2.normalized_member_of
      → f1.normalized_namespace = f2.normalized_namespace
      → f1.parameters = f2.parameters
      → f1.normalized_return_types = f2.normalized_return_types
      → f1.async = f2.async
      → get_similarity_score jw f1 f2 = 1) := by
  constructor
  · intro hnc
    cases hcw : current_weights f1.type f2.type with
    | none => exact gss_none hcw
    | some w =>
      exact absurd ((current_weights_isSome_iff _ _).mp (by rw [hcw]; rfl)) hnc
  · intro hc hn hm hns hp hrt ha
    obtain ⟨w, hw⟩ := Option.isSome_iff_exists.mp
      ((current_weights_isSome_iff f1.type f2.type).mpr hc)
    rw [gss_some hw, hn, hm, hns, hrefl, hrefl, hrefl, hp,
      calculate_parameters_score_self jw hrefl hjw1,
      calculate_return_type_score_eq_one hrt ha]
    rcases current_weights_cases hw with h | h | h <;> subst h <;> norm_num

/-- C2 (witness): two identical INSTANCE_METHOD features score exactly 1,
and an INSTANCE_METHOD against a CONSTRUCTOR scores exactly 0, under the
discrete string-similarity function. -/
theorem C2_witness :
    get_similarity_score jw_discrete (feat_method "run") (feat_method "run") = 1
      ∧ get_similarity_score jw_discrete (feat_method "run") feat_constructor = 0 :=
  ⟨(C2_identity_and_gate jw_discrete jw_discrete_refl jw_discrete_le_one _ _).2
      (Or.inr (Or.inr ⟨rfl, rfl⟩)) rfl rfl rfl rfl rfl rfl,
    (C2_identity_and_gate jw_discrete jw_discrete_refl jw_discrete_le_one _ _).1
      (by decide)⟩

/-- C3: for compatible-kind features, whenever the preliminary weighted sum
of the three string similarities (under the redistributed weights `w`) is
strictly below 0.8 times the sum of those three weights,
`get_similarity_score` returns exactly that preliminary sum, with no
parameter- or return-type contribution. -/
theorem C3_early_exit (jw : String → String → ℚ) (f1 f2 : Feature)
    (w : SimilarityWeights) (hw : current_weights f1.type f2.type = some w)
    (hlt : jw f1.normalized_name f2.normalized_name * w.name
        + jw f1.normalized_member_of f2.normalized_member_of * w.member_of
        + jw f1.normalized_namespace f2.normalized_namespace * w.namespace_
        < 4/5 * (w.name + w.member_of + w.namespace_)) :
    get_similarity_score jw f1 f2
      = jw f1.normalized_name f2.normalized_name * w.name
        + jw f1.normalized_member_of f2.normalized_member_of * w.member_of
        + jw f1.normalized_namespace f2.normalized_namespace * w.namespace_ := by
  rw [gss_some hw, if_pos hlt]

/-- C3 (witness): two INSTANCE_METHOD features with different names and the
discrete similarity trigger the early exit and return the truncated
three-field preliminary score. -/
theorem C3_witness :
    get_similarity_score jw_discrete (feat_method "alpha") (feat_method "beta")
      = jw_discrete (feat_method "alpha").normalized_name
            (feat_method "beta").normalized_name * DEFAULT_SIMILARITY_WEIGHTS.name
        + jw_discrete (feat_method "alpha").normalized_member_of
            (feat_method "beta").normalized_member_of * DEFAULT_SIMILARITY_WEIGHTS.member_of
        + jw_discrete (feat_method "alpha").normalized_namespace
            (feat_method "beta").normalized_namespace * DEFAULT_SIMILARITY_WEIGHTS.namespace_ :=
  C3_early_exit jw_discrete (feat_method "alpha") (feat_method "beta")
    DEFAULT_SIMILARITY_WEIGHTS rfl (by
      have e1 : jw_discrete "alpha" "beta" = 0 := if_neg (by decide)
      have e2 : jw_discrete "cls" "cls" = 1 := jw_discrete_refl "cls"
      have e3 : jw_discrete "mod" "mod" = 1 := jw_discrete_refl "mod"
      show jw_discrete "alpha" "beta" * DEFAULT_SIMILARITY_WEIGHTS.name
          + jw_discrete "cls" "cls" * DEFAULT_SIMILARITY_WEIGHTS.member_of
          + jw_discrete "mod" "mod" * DEFAULT_SIMILARITY_WEIGHTS.namespace_
          < 4/5 * (DEFAULT_SIMILARITY_WEIGHTS.name + DEFAULT_SIMILARITY_WEIGHTS.member_of
              + DEFAULT_SIMILARITY_WEIGHTS.namespace_)
      rw [e1, e2, e3]
      norm_num [DEFAULT_SIMILARITY_WEIGHTS])

/-- C5: the effective weights of `get_similarity_score`, derived from the
base weights {name 0.30, member_of 0.30, namespace 0.15, parameters 0.15,
return_type 0.10}: both CONSTRUCTOR folds name into member_of; both
FUNCTION/CLASS_METHOD halves member_of and folds the removed half into
name; both INSTANCE_METHOD keeps the base weights; and every compatible
case still sums to 1.0. -/
theorem C5_weight_redistribution :
    current_weights FeatureType.CONSTRUCTOR FeatureType.CONSTRUCTOR
        = some ⟨0, 3/5, 3/20, 3/20, 1/10⟩
      ∧ current_weights FeatureType.FUNCTION FeatureType.FUNCTION
          = some ⟨9/20, 3/20, 3/20, 3/20, 1/10⟩
      ∧ current_weights FeatureType.FUNCTION FeatureType.CLASS_METHOD
          = some ⟨9/20, 3/20, 3/20, 3/20, 1/10⟩
      ∧ current_weights FeatureType.CLASS_METHOD FeatureType.FUNCTION
          = some ⟨9/20, 3/20, 3/20, 3/20, 1/10⟩
      ∧ current_weights FeatureType.CLASS_METHOD FeatureType.CLASS_METHOD
          = some ⟨9/20, 3/20, 3/20, 3/20, 1/10⟩
      ∧ current_weights FeatureType.INSTANCE_METHOD FeatureType.INSTANCE_METHOD
          = some DEFAULT_SIMILARITY_WEIGHTS
      ∧ DEFAULT_SIMILARITY_WEIGHTS = ⟨3/10, 3/10, 3/20, 3/20, 1/10⟩
      ∧ (∀ t1 t2 w, current_weights t1 t2 = some w
          → w.name + w.member_of + w.namespace_ + w.parameters + w.return_type = 1) := by
  refine ⟨?_, ?_, ?_, ?_, ?_, rfl, rfl, ?_⟩
  · norm_num [current_weights, DEFAULT_SIMILARITY_WEIGHTS] <;> decide
  · norm_num [current_weights, DEFAULT_SIMILARITY_WEIGHTS] <;> decide
  · norm_num [current_weights, DEFAULT_SIMILARITY_WEIGHTS] <;> decide
  · norm_num [current_weights, DEFAULT_SIMILARITY_WEIGHTS] <;> decide
  · norm_num [current_weights, DEFAULT_SIMILARITY_WEIGHTS] <;> decide
  · intro t1 t2 w h
    rcases current_weights_cases h with h | h | h <;> subst h <;> norm_num

/-- C5 (witness): the constructor-case weights at a concrete instance, and
their sum evaluating to 1. -/
theorem C5_witness :
    current_weights FeatureType.CONSTRUCTOR FeatureType.CONSTRUCTOR
        = some ⟨0, 3/5, 3/20, 3/20, 1/10⟩
      ∧ (0 : ℚ) + 3/5 + 3/20 + 3/20 + 1/10 = 1 :=
  ⟨C5_weight_redistribution.1,
    C5_weight_redistribution.2.2.2.2.2.2.2 FeatureType.CONSTRUCTOR
      FeatureType.CONSTRUCTOR ⟨0, 3/5, 3/20, 3/20, 1/10⟩
      C5_weight_redistribution.1⟩

/-- C10: the similarity scorer is symmetric in its two feature arguments,
for any symmetric string-similarity function (as Jaro-Winkler is). -/
theorem C10_scorer_symmetric (jw : String → String → ℚ)
    (hsym : ∀ s t, jw s t = jw t s) (a b : Feature) :
    get_similarity_score jw a b = get_similarity_score jw b a :=
  get_similarity_score_comm jw hsym a b

/-- C10 (witness): symmetry at a concrete pair of features under the
discrete similarity. -/
theorem C10_witness :
    get_similarity_score jw_discrete (feat_method "run") feat_constructor
      = get_similarity_score jw_discrete feat_constructor (feat_method "run") :=
  C10_scorer_symmetric jw_discrete jw_discrete_symm (feat_method "run") feat_constructor

/-! ### Claims C1, C8 -/

/-- C1: the Optimal Matcher returns at most `min(|base|,|target|)` matches;
every returned match scores strictly above alpha and at most 1.0; no base
or target feature is used in two matches; matched elements are absent from
the post-call lists while unmatched ones remain, in their original relative
order; and on an empty input nothing is matched and both lists are
unchanged. The absence/presence facts are stated for duplicate-free lists
(`Nodup`), matching the registry semantics. -/
theorem C1_match_features (jw : String → String → ℚ) (hjw1 : ∀ s t, jw s t ≤ 1)
    (base target : List Feature) (alpha : ℚ)
    (hnb : base.Nodup) (hnt : target.Nodup) :
    (match_features jw base target alpha).1.length ≤ min base.length target.length
    ∧ (∀ x ∈ (match_features jw base target alpha).1, alpha < x.2.2 ∧ x.2.2 ≤ 1)
    ∧ ((match_features jw base target alpha).1.map fun x => x.1).Nodup
    ∧ ((match_features jw base target alpha).1.map fun x => x.2.1).Nodup
    ∧ (∀ x ∈ (match_features jw base target alpha).1,
        x.1 ∉ (match_features jw base target alpha).2.1
          ∧ x.2.1 ∉ (match_features jw base target alpha).2.2)
    ∧ (∀ f ∈ base, (∀ x ∈ (match_features jw base target alpha).1, x.1 ≠ f)
        → f ∈ (match_features jw base target alpha).2.1)
    ∧ (∀ f ∈ target, (∀ x ∈ (match_features jw base target alpha).1, x.2.1 ≠ f)
        → f ∈ (match_features jw base target alpha).2.2)
    ∧ (match_features jw base target alpha).2.1.Sublist base
    ∧ (match_features jw base target alpha).2.2.Sublist target
    ∧ (base = [] ∨ target = [] → match_features jw base target alpha = ([], base, target)) := by
  refine ⟨match_features_length_le jw base target alpha,
    fun x hx => ⟨(match_features_mem_matches hx).1, ?_⟩,
    (match_features_matches_nodup hnb hnt).1,
    (match_features_matches_nodup hnb hnt).2,
    fun x hx => match_features_matched_absent hnb hnt hx,
    fun f hf hun => match_features_unmatched_present_base hf hun,
    fun f hf hun => match_features_unmatched_present_target hf hun,
    (match_features_rest_sublist jw base target alpha).1,
    (match_features_rest_sublist jw base target alpha).2,
    fun h => match_features_empty h⟩
  rw [(match_features_mem_matches hx).2.1]
  exact get_similarity_score_le_one jw hjw1 x.1 x.2.1

/-- C1 (witness): a concrete one-against-one run under the discrete
similarity, checking the leftover-sublist and count-bound facts. -/
theorem C1_witness :
    (match_features jw_discrete [feat_method "run"] [feat_method "walk"]
        (1/2)).2.1.Sublist [feat_method "run"]
      ∧ (match_features jw_discrete [feat_method "run"] [feat_method "walk"]
          (1/2)).1.length ≤ min 1 1 :=
  ⟨(C1_match_features jw_discrete jw_discrete_le_one [feat_method "run"]
      [feat_method "walk"] (1/2) (by simp) (by simp)).2.2.2.2.2.2.2.1,
    (C1_match_features jw_discrete jw_discrete_le_one [feat_method "run"]
      [feat_method "walk"] (1/2) (by simp) (by simp)).1⟩

/-- C8: parameter-list similarity is 1.0 for two empty lists, 0.0 when
exactly one list is empty, and otherwise `2·M/(|P1|+|P2|)` where `M` is the
total of a maximum-weight assignment (all indices of the smaller side
assigned injectively into the larger side) over the matrix whose cell
(i,j) is `0.5·name_sim + 0.4·type_set_match + 0.1·is_optional-agreement`. -/
theorem C8_parameters_score (jw : String → String → ℚ) (ps1 ps2 : List Param) :
    (ps1 = [] → ps2 = [] → calculate_parameters_score jw ps1 ps2 = 1)
    ∧ (ps1 = [] → ps2 ≠ [] → calculate_parameters_score jw ps1 ps2 = 0)
    ∧ (ps1 ≠ [] → ps2 = [] → calculate_parameters_score jw ps1 ps2 = 0)
    ∧ (ps1 ≠ [] → ps2 ≠ [] →
        ∃ T, calculate_parameters_score jw ps1 ps2
            = 2 * T / (ps1.length + ps2.length)
          ∧ (ps1.length ≤ ps2.length →
              (∀ f : Fin ps1.length → Fin ps2.length, Function.Injective f →
                  (∑ i, ((1/2) * jw (ps1.get i).normalized_name
                      ((ps2.get (f i)).normalized_name)
                    + (2/5) * fuzzy_type_match (ps1.get i).normalized_types
                        (ps2.get (f i)).normalized_types
                    + (1/10) * (if (ps1.get i).is_optional
                        = (ps2.get (f i)).is_optional then 1 else 0))) ≤ T)
                ∧ ∃ f : Fin ps1.length → Fin ps2.length, Function.Injective f
                    ∧ (∑ i, ((1/2) * jw (ps1.get i).normalized_name
                        ((ps2.get (f i)).normalized_name)
                      + (2/5) * fuzzy_type_match (ps1.get i).normalized_types
                          (ps2.get (f i)).normalized_types
                      + (1/10) * (if (ps1.get i).is_optional
                          = (ps2.get (f i)).is_optional then 1 else 0))) = T)
          ∧ (ps2.length ≤ ps1.length →
              (∀ g : Fin ps2.length → Fin ps1.length, Function.Injective g →
                  (∑ j, ((1/2) * jw (ps1.get (g j)).normalized_name
                      ((ps2.get j).normalized_name)
                    + (2/5) * fuzzy_type_match (ps1.get (g j)).normalized_types
                        (ps2.get j).normalized_types
                    + (1/10) * (if (ps1.get (g j)).is_optional
                        = (ps2.get j).is_optional then 1 else 0))) ≤ T)
                ∧ ∃ g : Fin ps2.length → Fin ps1.length, Function.Injective g
                    ∧ (∑ j, ((1/2) * jw (ps1.get (g j)).normalized_name
                        ((ps2.get j).normalized_name)
                      + (2/5) * fuzzy_type_match (ps1.get (g j)).normalized_types
                          (ps2.get j).normalized_types
                      + (1/10) * (if (ps1.get (g j)).is_optional
                          = (ps2.get j).is_optional then 1 else 0))) = T)) := by
  refine ⟨?_, ?_, ?_, ?_⟩
  · intro h1 h2
    unfold calculate_parameters_score
    rw [if_pos ⟨h1, h2⟩]
  · intro h1 h2
    unfold calculate_parameters_score
    rw [if_neg (by tauto), if_pos (Or.inl h1)]
  · intro h1 h2
    unfold calculate_parameters_score
    rw [if_neg (by tauto), if_pos (Or.inr h2)]
  · intro h1 h2
    refine ⟨opt_total_rect ps1.length ps2.length (param_matrix jw ps1 ps2),
      ?_, ?_, ?_⟩
    · unfold calculate_parameters_score
      rw [if_neg (by tauto), if_neg (by tauto)]
    · intro hpq
      have hT : opt_total_rect ps1.length ps2.length (param_matrix jw ps1 ps2)
          = opt_total ps1.length ps2.length (param_matrix jw ps1 ps2) := if_pos hpq
      rw [hT]
      exact ⟨fun f hf => le_opt_total (param_matrix jw ps1 ps2) hf,
        by
          obtain ⟨f, hf, he⟩ := opt_total_exists hpq (param_matrix jw ps1 ps2)
          exact ⟨f, hf, he.symm⟩⟩
    · intro hqp
      have hT : opt_total_rect ps1.length ps2.length (param_matrix jw ps1 ps2)
          = opt_total ps2.length ps1.length
              (Function.swap (param_matrix jw ps1 ps2)) := by
        rw [← opt_total_rect_swap (param_matrix jw ps1 ps2)]
        exact if_pos hqp
      rw [hT]
      exact ⟨fun g hg => le_opt_total (Function.swap (param_matrix jw ps1 ps2)) hg,
        by
          obtain ⟨g, hg, he⟩ := opt_total_exists hqp
            (Function.swap (param_matrix jw ps1 ps2))
          exact ⟨g, hg, he.symm⟩⟩

/-- C8 (witness): the two empty-list branches at concrete inputs. -/
theorem C8_witness :
    calculate_parameters_score jw_discrete [] [] = 1
      ∧ calculate_parameters_score jw_discrete [] [par_a] = 0 :=
  ⟨(C8_parameters_score jw_discrete [] []).1 rfl rfl,
    (C8_parameters_score jw_discrete [] [par_a]).2.1 rfl (by simp)⟩

/-! ### Claims C6, C9 -/

theorem process_module_symmetric_score (jw : String → String → ℚ)
    (b t : List Feature) (a : ℚ) :
    (process_module jw b t a "symmetric").score
      = (if 0 < ((b.length : ℚ) + t.length - (match_features jw b t a).1.length)
        then ((match_features jw b t a).1.length : ℚ)
          / ((b.length : ℚ) + t.length - (match_features jw b t a).1.length)
        else 1) := rfl

theorem process_module_directional_score (jw : String → String → ℚ)
    (b t : List Feature) (a : ℚ) :
    (process_module jw b t a "directional").score
      = calculate_f1 (calculate_precision (match_features jw b t a).1.length t.length)
          (calculate_recall (match_features jw b t a).1.length b.length) := rfl

/-- C6: the per-module symmetric score is `|solid|/(base_count+target_count
-|solid|)` with the original (pre-matching) counts and a 1.0 fallback when
the denominator is zero; the directional score is the F1 of
precision `|solid|/target_count` (1.0 when `target_count` is 0) and recall
`|solid|/base_count` (1.0 when `base_count` is 0), with
`F1(p,r) = 2pr/(p+r)` and 0.0 when `p+r = 0`; a module empty on both sides
scores 1.0 under both formulas. All formulas are total functions with
explicit fallback branches, so no division error can occur. -/
theorem C6_module_scores (jw : String → String → ℚ)
    (base target : List Feature) (alpha : ℚ) :
    ((process_module jw base target alpha "symmetric").score
        = if ((base.length : ℚ) + target.length
              - (process_module jw base target alpha "symmetric").solid_matches_count) = 0
          then 1
          else ((process_module jw base target alpha "symmetric").solid_matches_count : ℚ)
            / ((base.length : ℚ) + target.length
                - (process_module jw base target alpha "symmetric").solid_matches_count))
    ∧ ((process_module jw base target alpha "directional").score
        = calculate_f1
            (calculate_precision
              (process_module jw base target alpha "directional").solid_matches_count
              target.length)
            (calculate_recall
              (process_module jw base target alpha "directional").solid_matches_count
              base.length))
    ∧ (∀ s t : ℕ, calculate_precision s t = if t = 0 then 1 else (s : ℚ) / t)
    ∧ (∀ s b : ℕ, calculate_recall s b = if b = 0 then 1 else (s : ℚ) / b)
    ∧ (∀ p r : ℚ, 0 ≤ p → 0 ≤ r →
        calculate_f1 p r = if p + r = 0 then 0 else 2 * (p * r) / (p + r))
    ∧ (base = [] → target = [] →
        (process_module jw base target alpha "symmetric").score = 1
          ∧ (process_module jw base target alpha "directional").score = 1) := by
  have hs : (match_features jw base target alpha).1.length
      ≤ min base.length target.length := match_features_length_le jw base target alpha
  have hsle : (match_features jw base target alpha).1.length
      ≤ base.length + target.length := le_trans hs (by omega)
  have hden : (0 : ℚ) ≤ (base.length : ℚ) + target.length
      - (match_features jw base target alpha).1.length := by
    have : ((match_features jw base target alpha).1.length : ℚ)
        ≤ (base.length : ℚ) + target.length := by exact_mod_cast hsle
    linarith
  refine ⟨?_, rfl, ?_, ?_, ?_, ?_⟩
  · rw [process_module_symmetric_score]
    show _ = if ((base.length : ℚ) + target.length
        - (match_features jw base target alpha).1.length) = 0 then 1
      else ((match_features jw base target alpha).1.length : ℚ)
        / ((base.length : ℚ) + target.length
            - (match_features jw base target alpha).1.length)
    rcases eq_or_lt_of_le hden with h | h
    · rw [if_neg (by rw [← h]; exact lt_irrefl 0), if_pos h.symm]
    · rw [if_pos h, if_neg (ne_of_gt h)]
  · intro s t
    unfold calculate_precision
    rcases Nat.eq_zero_or_pos t with h | h
    · rw [if_neg (by omega), if_pos h]
    · rw [if_pos h, if_neg (by omega)]
  · intro s b
    unfold calculate_recall
    rcases Nat.eq_zero_or_pos b with h | h
    · rw [if_neg (by omega), if_pos h]
    · rw [if_pos h, if_neg (by omega)]
  · intro p r hp hr
    unfold calculate_f1
    rcases eq_or_lt_of_le (by linarith : (0:ℚ) ≤ p + r) with h | h
    · rw [if_neg (by rw [← h]; exact lt_irrefl 0), if_pos h.symm]
    · rw [if_pos h, if_neg (ne_of_gt h)]
  · intro hb ht
    subst hb
    subst ht
    constructor
    · rw [process_module_symmetric_score]
      norm_num
    · rw [process_module_directional_score]
      show calculate_f1 (calculate_precision 0 0) (calculate_recall 0 0) = 1
      unfold calculate_f1 calculate_precision calculate_recall
      norm_num

/-- C6 (witness): a module empty on both sides scores 1.0 under both
report types. -/
theorem C6_witness :
    (process_module jw_discrete [] [] (4/5) "symmetric").score = 1
      ∧ (process_module jw_discrete [] [] (4/5) "directional").score = 1 :=
  (C6_module_scores jw_discrete [] [] (4/5)).2.2.2.2.2 rfl rfl

/-- C9: the lenient pass of `_process_module` runs `match_features` on the
strict pass's leftovers at threshold exactly `max(0, alpha - 0.15)`, and
(for duplicate-free, non-overlapping base/target lists) no feature matched
in the strict pass appears in any lenient-pass match. -/
theorem C9_two_pass (jw : String → String → ℚ) (base target : List Feature)
    (alpha : ℚ) (report_type : String) (hnd : (base ++ target).Nodup) :
    (process_module jw base target alpha report_type).potential_matches
      = (match_features jw (match_features jw base target alpha).2.1
          (match_features jw base target alpha).2.2 (max 0 (alpha - 3/20))).1
    ∧ ∀ x ∈ (process_module jw base target alpha report_type).potential_matches,
        ∀ y ∈ (process_module jw base target alpha report_type).solid_matches,
          x.1 ≠ y.1 ∧ x.1 ≠ y.2.1 ∧ x.2.1 ≠ y.1 ∧ x.2.1 ≠ y.2.1 := by
  obtain ⟨hnb, hnt, hdisj⟩ := List.nodup_append.mp hnd
  refine ⟨rfl, ?_⟩
  intro x hx y hy
  have hx2 := match_features_mem_matches
    (show x ∈ (match_features jw (match_features jw base target alpha).2.1
      (match_features jw base target alpha).2.2 (max 0 (alpha - 3/20))).1 from hx)
  have hy1 := match_features_mem_matches
    (show y ∈ (match_features jw base target alpha).1 from hy)
  have habs := match_features_matched_absent hnb hnt
    (show y ∈ (match_features jw base target alpha).1 from hy)
  have hx1rest : x.1 ∈ (match_features jw base target alpha).2.1 := hx2.2.2.1
  have hx2rest : x.2.1 ∈ (match_features jw base target alpha).2.2 := hx2.2.2.2
  have hx1base : x.1 ∈ base :=
    (match_features_rest_sublist jw base target alpha).1.subset hx1rest
  have hx2target : x.2.1 ∈ target :=
    (match_features_rest_sublist jw base target alpha).2.subset hx2rest
  have hy1base : y.1 ∈ base := hy1.2.2.1
  have hy2target : y.2.1 ∈ target := hy1.2.2.2
  refine ⟨?_, ?_, ?_, ?_⟩
  · intro he
    exact habs.1 (he ▸ hx1rest)
  · intro he
    exact hdisj hx1base (he ▸ hy2target)
  · intro he
    exact hdisj (he ▸ hy1base) hx2target
  · intro he
    exact habs.2 (he ▸ hx2rest)

/-- C9 (witness): a concrete two-pass run on disjoint singleton lists. -/
theorem C9_witness :
    (process_module jw_discrete [feat_method "run"] [feat_method "walk"]
        (4/5) "symmetric").potential_matches
      = (match_features jw_discrete
          (match_features jw_discrete [feat_method "run"] [feat_method "walk"] (4/5)).2.1
          (match_features jw_discrete [feat_method "run"] [feat_method "walk"] (4/5)).2.2
          (max 0 (4/5 - 3/20))).1 :=
  (C9_two_pass jw_discrete [feat_method "run"] [feat_method "walk"] (4/5)
    "symmetric" (by simp [feat_method])).1

/-! ### Claim C4 -/

theorem filter_key_of_nodup {T : String} {fs : List Feature} :
    ∀ {ft : List (String × List Feature)}, (ft.map Prod.fst).Nodup → (T, fs) ∈ ft →
      ft.filter (fun tp => decide (tp.1 = T)) = [(T, fs)]
  | [], _, hm => absurd hm (by simp)
  | hd :: tl, hnd, hm => by
    rw [List.map_cons, List.nodup_cons] at hnd
    rcases List.mem_cons.mp hm with he | hmtl
    · subst he
      rw [List.filter_cons_of_pos (by simp)]
      have htl : tl.filter (fun tp => decide (tp.1 = T)) = [] := by
        rw [List.filter_eq_nil]
        intro tp htp
        simp only [decide_eq_true_eq]
        intro hk
        exact hnd.1 (List.mem_map.mpr ⟨tp, htp, hk⟩)
      rw [htl]
    · have hT : T ∈ tl.map Prod.fst := List.mem_map.mpr ⟨(T, fs), hmtl, rfl⟩
      have hne : ¬hd.1 = T := fun he => hnd.1 (he ▸ hT)
      rw [List.filter_cons_of_neg (by simpa using hne)]
      exact filter_key_of_nodup hnd.2 hmtl

theorem mergeSort_keys_ne_nil {fb : List (String × List Feature)} (h : fb ≠ []) :
    ((fb.map Prod.fst).mergeSort fun a b => decide (a ≤ b)) ≠ [] := by
  intro he
  have hp := List.mergeSort_perm (fb.map Prod.fst) fun a b => decide (a ≤ b)
  rw [he] at hp
  exact h (List.map_eq_nil.mp (hp.symm.eq_nil))

/-- C4 (counterexample): the claim says a target key whose best similarity
to every base key is at most 0.8 is not silently lost; but here the target
key "zzzz" (similarity 0 to the only base key "alpha" under the discrete
similarity, and equally below 0.8 under Jaro-Winkler) is dropped: the
remapped map is exactly the empty "alpha" bucket, and the feature stored
under "zzzz" is in no bucket of the output. -/
theorem C4_counterexample :
    fuzzy_match_namespaces jw_discrete [("alpha", [])]
        [("zzzz", [c4_feature])] = [("alpha", [])] := by
  have hjw : jw_discrete "zzzz" "alpha" = 0 := if_neg (by decide)
  have hbest : best_namespace_match jw_discrete "zzzz" ["alpha"]
      = some ("alpha", jw_discrete "zzzz" "alpha") := rfl
  have hdest : remap_destination jw_discrete ["alpha"] "zzzz" = none := by
    unfold remap_destination
    rw [if_neg (by decide), if_neg (by decide), hbest]
    show (if 4/5 < jw_discrete "zzzz" "alpha" ∧ ("alpha" : String) ≠ ""
        then some "alpha" else none) = none
    rw [if_neg fun hc => absurd (hjw ▸ hc.1) (by norm_num)]
  unfold fuzzy_match_namespaces
  have hbns : ((([(("alpha" : String), ([] : List Feature))]).map Prod.fst).mergeSort
      fun a b => decide (a ≤ b)) = ["alpha"] := by simp
  rw [hbns]
  simp only [List.foldl_cons, List.foldl_nil, hdest]
  rfl

/-- C4 (amended): namespace reconciliation keeps a target key that equals a
base key under that key; keeps everything unchanged when the base map is
empty; merges a target key into the first best-matching base key when the
best similarity exceeds 0.8 (all base keys being non-empty strings); and a
target key whose similarity to every base key is at most 0.8 is silently
DROPPED — its features (when they occur in no other target bucket) appear
in no bucket of the output map. -/
theorem C4_namespace_reconciliation (jw : String → String → ℚ)
    (fb ft : List (String × List Feature)) :
    (∀ T fs, (T, fs) ∈ ft → T ∈ fb.map Prod.fst →
        ∀ f ∈ fs, f ∈ bucket (fuzzy_match_namespaces jw fb ft) T)
    ∧ (fb = [] → (ft.map Prod.fst).Nodup →
        ∀ T fs, (T, fs) ∈ ft → bucket (fuzzy_match_namespaces jw fb ft) T = fs)
    ∧ (∀ T fs, (T, fs) ∈ ft → T ∉ fb.map Prod.fst → "" ∉ fb.map Prod.fst →
        (∃ x ∈ fb.map Prod.fst, 4/5 < jw T x) →
        ∃ b, b ∈ fb.map Prod.fst ∧ (∀ x ∈ fb.map Prod.fst, jw T x ≤ jw T b)
          ∧ 4/5 < jw T b
          ∧ ∀ f ∈ fs, f ∈ bucket (fuzzy_match_namespaces jw fb ft) b)
    ∧ (∀ T fs, (T, fs) ∈ ft → T ∉ fb.map Prod.fst → fb ≠ [] →
        (∀ x ∈ fb.map Prod.fst, jw T x ≤ 4/5) →
        ∀ f ∈ fs, (∀ tp ∈ ft, tp.1 ≠ T → f ∉ tp.2) →
          ∀ k, f ∉ bucket (fuzzy_match_namespaces jw fb ft) k) := by
  refine ⟨?_, ?_, ?_, ?_⟩
  · intro T fs htp hTk f hf
    rw [fuzzy_bucket]
    have hdest : remap_destination jw
        ((fb.map Prod.fst).mergeSort fun a b => decide (a ≤ b)) T = some T := by
      unfold remap_destination
      rw [if_pos (List.mem_mergeSort.mpr hTk)]
    exact List.mem_flatMap.mpr ⟨(T, fs),
      List.mem_filter.mpr ⟨htp, decide_eq_true hdest⟩, hf⟩
  · intro hfb hnodup T fs htp
    subst hfb
    rw [fuzzy_bucket]
    have hcong : ∀ tp ∈ ft,
        (decide (remap_destination jw
          ((([] : List (String × List Feature)).map Prod.fst).mergeSort
            fun a b => decide (a ≤ b)) tp.1 = some T))
        = decide (tp.1 = T) := by
      intro tp _
      have : remap_destination jw [] tp.1 = some tp.1 := by
        unfold remap_destination
        rw [if_neg (by simp), if_pos rfl]
      simp [this]
    rw [List.filter_congr hcong, filter_key_of_nodup hnodup htp]
    simp
  · intro T fs htp hTk hek ⟨x, hx, hxgt⟩
    have hbne := mergeSort_keys_ne_nil (List.ne_nil_of_mem (List.mem_map.mp hx).choose_spec.1)
    obtain ⟨b, s, hbm, hbmem, hjs, hall⟩ := best_namespace_match_spec jw T hbne
    have hbkeys : b ∈ fb.map Prod.fst := List.mem_mergeSort.mp hbmem
    have hgt : 4/5 < s :=
      lt_of_lt_of_le hxgt (hall x (List.mem_mergeSort.mpr hx))
    have hbne2 : b ≠ "" := fun he => hek (he ▸ hbkeys)
    have hdest : remap_destination jw
        ((fb.map Prod.fst).mergeSort fun a b => decide (a ≤ b)) T = some b := by
      unfold remap_destination
      rw [if_neg (fun hm => hTk (List.mem_mergeSort.mp hm)), if_neg hbne, hbm]
      show (if 4/5 < s ∧ b ≠ "" then some b else none) = some b
      rw [if_pos ⟨hgt, hbne2⟩]
    refine ⟨b, hbkeys, fun y hy => hjs ▸ hall y (List.mem_mergeSort.mpr hy),
      hjs ▸ hgt, fun f hf => ?_⟩
    rw [fuzzy_bucket]
    exact List.mem_flatMap.mpr ⟨(T, fs),
      List.mem_filter.mpr ⟨htp, decide_eq_true hdest⟩, hf⟩
  · intro T fs htp hTk hfbne hle f hf honly k hmem
    rw [fuzzy_bucket] at hmem
    obtain ⟨tp, htpf, hftp⟩ := List.mem_flatMap.mp hmem
    obtain ⟨htpft, hdec⟩ := List.mem_filter.mp htpf
    have hdest : remap_destination jw
        ((fb.map Prod.fst).mergeSort fun a b => decide (a ≤ b)) tp.1 = some k :=
      of_decide_eq_true hdec
    by_cases hkey : tp.1 = T
    · have hbne := mergeSort_keys_ne_nil hfbne
      obtain ⟨b, s, hbm, hbmem, hjs, hall⟩ := best_namespace_match_spec jw T hbne
      have hsle : s ≤ 4/5 := hjs ▸ hle b (List.mem_mergeSort.mp hbmem)
      have hnone : remap_destination jw
          ((fb.map Prod.fst).mergeSort fun a b => decide (a ≤ b)) T = none := by
        unfold remap_destination
        rw [if_neg (fun hm => hTk (List.mem_mergeSort.mp hm)), if_neg hbne, hbm]
        show (if 4/5 < s ∧ b ≠ "" then some b else none) = none
        rw [if_neg fun hc => absurd hc.1 (not_lt.mpr hsle)]
      rw [hkey, hnone] at hdest
      cases hdest
    · exact honly tp htpft hkey hftp

/-- C4 (witness): with an empty base map a target bucket passes through
unchanged. -/
theorem C4_witness :
    bucket (fuzzy_match_namespaces jw_discrete [] [("mod.one", [c4_feature])])
        "mod.one" = [c4_feature] :=
  (C4_namespace_reconciliation jw_discrete [] [("mod.one", [c4_feature])]).2.1
    rfl (by simp) "mod.one" [c4_feature] (by simp)

end AdkScope
